import Mathlib

/-!
Verification of the stepper motor driver (`src/Marlin/stepper.cpp`) of the
Marlin4Due firmware.

The Lean definitions below are a shallow embedding of the stepper ISR
pipeline.  Configuration chosen for the main model (matching the claims):
plain Cartesian kinematics (no COREXY), no DUAL_X_CARRIAGE, no ADVANCE,
ENABLE_HIGH_SPEED_STEPPING on (the multi-step loop), all MIN/MAX endstop
pins present, and an optional Z_PROBE_ENDSTOP flag.  The dual-Z-endstop
variant of the Z endstop check is embedded as a separate function.

Machine integers are modelled as `Nat` with an explicit `% 2^32` (or
`% 2^64` for the 64-bit intermediate of `MultiU32X32toH32`) at every point
where the C code can wrap.  The Bresenham counters (`long` in C) are
modelled as `Int`; theorems that rely on the absence of 32-bit overflow
carry that hypothesis explicitly.  Pin levels are modelled as the logical
"asserted" value after the per-pin polarity inversion of the source has
been applied, so a step pin write of `!INVERT_X_STEP_PIN` appears as a
write of `true`.
-/

/-- The four logical axes `X_AXIS = 0`, `Y_AXIS = 1`, `Z_AXIS = 2`, `E_AXIS = 3`. -/
abbrev Axis := Fin 4

/-- The endstop bits used for `current_endstop_bits`, `old_endstop_bits` and
`endstop_hit_bits` (source line 83).  Modelled as an enumeration rather than
numeric bit positions: no claim depends on the concrete bit numbers, only on
which bits are distinct. -/
inductive Endstop where
  | X_MIN | Y_MIN | Z_MIN | Z_PROBE
  | X_MAX | Y_MAX | Z_MAX
  | Z2_MIN | Z2_MAX
  deriving DecidableEq, Fintype, Repr

/-- `endstop_hit_bits` uses only `X_MIN`, `Y_MIN`, `Z_MIN` and `Z_PROBE`
(source comment line 76); this predicate names that set of bits. -/
def Endstop.isMinOrProbe : Endstop → Bool
  | .X_MIN | .Y_MIN | .Z_MIN | .Z_PROBE => true
  | _ => false

/-- The hit bit recorded by `_ENDSTOP_HIT(AXIS)` (line 407): always the MIN
bit of the axis, for MIN and MAX endstops alike. -/
def minBit : Fin 3 → Endstop
  | 0 => .X_MIN
  | 1 => .Y_MIN
  | 2 => .Z_MIN

/-- A motion block, as produced by the planner (`block_t`).  All rate and
count fields are 32-bit unsigned in C. -/
structure Block where
  steps : Axis → Nat
  step_event_count : Nat
  direction_bits : Axis → Bool   -- true = negative direction (bit set)
  accelerate_until : Nat
  decelerate_after : Nat
  acceleration_rate : Nat
  initial_rate : Nat
  nominal_rate : Nat
  final_rate : Nat
  deriving DecidableEq, Repr

/-- Compile-time configuration constants used by the embedded fragments. -/
structure Config where
  HAL_TIMER_RATE : Nat
  MAX_STEP_FREQUENCY : Nat
  DOUBLE_STEP_FREQUENCY : Nat
  Z_PROBE_ENDSTOP : Bool
  INVERT_X_DIR : Bool
  INVERT_Y_DIR : Bool
  INVERT_Z_DIR : Bool
  INVERT_E_DIR : Bool
  deriving DecidableEq, Repr

/-- The mutable state of the stepper driver: the `static` variables of
`stepper.cpp` that the embedded fragments touch.  Step and direction pins
are recorded as logical asserted levels (polarity inversion applied). -/
structure Stepper where
  current_block : Option Block
  cleaning_buffer_counter : Nat
  counter : Axis → Int                 -- counter_x .. counter_e
  step_events_completed : Nat
  acc_step_rate : Nat
  acceleration_time : Nat
  deceleration_time : Nat
  step_loops : Nat
  step_loops_nominal : Nat
  OCR1A_nominal : Nat
  out_bits : Axis → Bool
  count_position : Axis → Int
  count_direction : Axis → Int
  check_endstops : Bool
  old_endstop_bits : Endstop → Bool
  endstop_hit_bits : Endstop → Bool
  endstops_trigsteps : Fin 3 → Int
  dirPins : Axis → Bool
  stepPins : Axis → Bool
  deriving DecidableEq

/-- `intRes = ((uint64_t)longIn1 * longIn2 + 0x80000000) >> 32`
(source line 163).  The 64-bit intermediate is explicit via `% 2^64`. -/
def MultiU32X32toH32 (longIn1 longIn2 : Nat) : Nat :=
  ((longIn1 * longIn2 + 0x80000000) % 2 ^ 64) / 2 ^ 32

/-- `calc_timer` (lines 229-251) with `ENABLE_HIGH_SPEED_STEPPING`:
returns the timer interval together with the `step_loops` value the call
leaves behind. -/
def calc_timer (cfg : Config) (step_rate0 : Nat) : Nat × Nat :=
  let step_rate := if cfg.MAX_STEP_FREQUENCY < step_rate0 then cfg.MAX_STEP_FREQUENCY
                   else step_rate0
  if 2 * cfg.DOUBLE_STEP_FREQUENCY < step_rate then
    (cfg.HAL_TIMER_RATE / (step_rate >>> 2), 4)
  else if cfg.DOUBLE_STEP_FREQUENCY < step_rate then
    (cfg.HAL_TIMER_RATE / (step_rate >>> 1), 2)
  else
    (cfg.HAL_TIMER_RATE / step_rate, 1)

/-- `HAL_timer_stepper_count` (lines 302-307): program the comparator
`TC_RC` from the free-running counter `TC_CV` with a 42-count guard. -/
def HAL_timer_stepper_count (TC_CV count : Nat) : Nat :=
  let counter_value := (TC_CV + 42) % 2 ^ 32
  if counter_value ≤ count then count else counter_value

/-- `set_stepper_direction` (lines 254-294): latch the direction pins from
`out_bits` and mirror them into `count_direction`.  The E axis is handled
by `REV_E_DIR()` / `NORM_E_DIR()`; the pin level written is modelled with
`INVERT_E_DIR` like the other axes. -/
def set_stepper_direction (cfg : Config) (s : Stepper) : Stepper :=
  let s :=
    if s.out_bits 0 then
      { s with dirPins := Function.update s.dirPins 0 cfg.INVERT_X_DIR,
               count_direction := Function.update s.count_direction 0 (-1) }
    else
      { s with dirPins := Function.update s.dirPins 0 (!cfg.INVERT_X_DIR),
               count_direction := Function.update s.count_direction 0 1 }
  let s :=
    if s.out_bits 1 then
      { s with dirPins := Function.update s.dirPins 1 cfg.INVERT_Y_DIR,
               count_direction := Function.update s.count_direction 1 (-1) }
    else
      { s with dirPins := Function.update s.dirPins 1 (!cfg.INVERT_Y_DIR),
               count_direction := Function.update s.count_direction 1 1 }
  let s :=
    if s.out_bits 2 then
      { s with dirPins := Function.update s.dirPins 2 cfg.INVERT_Z_DIR,
               count_direction := Function.update s.count_direction 2 (-1) }
    else
      { s with dirPins := Function.update s.dirPins 2 (!cfg.INVERT_Z_DIR),
               count_direction := Function.update s.count_direction 2 1 }
  if s.out_bits 3 then
    { s with dirPins := Function.update s.dirPins 3 cfg.INVERT_E_DIR,
             count_direction := Function.update s.count_direction 3 (-1) }
  else
    { s with dirPins := Function.update s.dirPins 3 (!cfg.INVERT_E_DIR),
             count_direction := Function.update s.count_direction 3 1 }

/-- `trapezoid_generator_reset` (lines 309-341, ADVANCE disabled). -/
def trapezoid_generator_reset (cfg : Config) (B : Block) (s : Stepper) : Stepper :=
  let s :=
    if B.direction_bits ≠ s.out_bits then
      set_stepper_direction cfg { s with out_bits := B.direction_bits }
    else s
  let nom := calc_timer cfg B.nominal_rate
  let init0 := calc_timer cfg B.initial_rate
  { s with deceleration_time := 0,
           OCR1A_nominal := nom.1,
           step_loops_nominal := nom.2,
           acc_step_rate := B.initial_rate,
           acceleration_time := init0.1,
           step_loops := init0.2 }

/-- Block acquisition (lines 368-373): mark busy (not modelled — blocks are
read-only here), reset the trapezoid generator, initialise the Bresenham
counters to `-(step_event_count >> 1)` and zero `step_events_completed`. -/
def loadBlock (cfg : Config) (B : Block) (s : Stepper) : Stepper :=
  let s := trapezoid_generator_reset cfg B { s with current_block := some B }
  { s with counter := fun _ => -((B.step_event_count >>> 1 : Nat) : Int),
           step_events_completed := 0 }

/-- The scratch variables mutated by the endstop-checking block of the ISR
(lines 395-551): the local `current_endstop_bits` plus the globals it
updates. -/
structure ECtx where
  cur : Endstop → Bool
  hit : Endstop → Bool
  trig : Fin 3 → Int
  completed : Nat
  deriving DecidableEq

/-- `SET_ENDSTOP_BIT(AXIS, MINMAX)` (line 411): store the sampled (and
polarity-corrected) pin status `pins e` into bit `e` of
`current_endstop_bits`. -/
def SET_ENDSTOP_BIT (pins cur : Endstop → Bool) (e : Endstop) : Endstop → Bool :=
  Function.update cur e (pins e)

/-- `TEST_ENDSTOP(ENDSTOP)` (line 415): asserted in both the current and
the previous sample. -/
def TEST_ENDSTOP (cur old : Endstop → Bool) (e : Endstop) : Bool :=
  cur e && old e

/-- `UPDATE_ENDSTOP(AXIS, MINMAX)` (lines 417-423): sample the pin, and on a
confirmed trigger of an axis with nonzero steps, capture the trigger
position, latch the axis MIN bit (`_ENDSTOP_HIT`), and force
`step_events_completed` to `step_event_count`. -/
def UPDATE_ENDSTOP (B : Block) (old pins : Endstop → Bool) (cpos : Axis → Int)
    (axis : Fin 3) (e : Endstop) (c : ECtx) : ECtx :=
  let cur := SET_ENDSTOP_BIT pins c.cur e
  if TEST_ENDSTOP cur old e && decide (0 < B.steps axis.castSucc) then
    { cur := cur,
      hit := Function.update c.hit (minBit axis) true,
      trig := Function.update c.trig axis (cpos axis.castSucc),
      completed := B.step_event_count }
  else
    { c with cur := cur }

/-- The extra Z-probe handling (lines 502-509 and 540-547): after
`UPDATE_ENDSTOP(Z, PROBE)`, a confirmed probe trigger additionally records
the trigger position and latches the `Z_PROBE` bit, with no direction or
step-count gating. -/
def zProbeCheck (B : Block) (old pins : Endstop → Bool) (cpos : Axis → Int)
    (c : ECtx) : ECtx :=
  let c := UPDATE_ENDSTOP B old pins cpos 2 .Z_PROBE c
  if TEST_ENDSTOP c.cur old .Z_PROBE then
    { c with trig := Function.update c.trig 2 (cpos 2),
             hit := Function.update c.hit .Z_PROBE true }
  else c

/-- The endstop-checking block of the ISR (lines 395-551) for the plain
Cartesian, single-Z-endstop configuration, with `Z_PROBE_ENDSTOP`
controlled by `cfg`.  Direction gating comes from `out_bits`: a set bit
means movement in the negative direction, so MIN endstops are checked;
otherwise MAX endstops. -/
def endstopPhase (cfg : Config) (B : Block) (pins : Endstop → Bool)
    (s : Stepper) : Stepper :=
  let c0 : ECtx := { cur := fun _ => false, hit := s.endstop_hit_bits,
                     trig := s.endstops_trigsteps,
                     completed := s.step_events_completed }
  let c1 := if s.out_bits 0 then
              UPDATE_ENDSTOP B s.old_endstop_bits pins s.count_position 0 .X_MIN c0
            else
              UPDATE_ENDSTOP B s.old_endstop_bits pins s.count_position 0 .X_MAX c0
  let c2 := if s.out_bits 1 then
              UPDATE_ENDSTOP B s.old_endstop_bits pins s.count_position 1 .Y_MIN c1
            else
              UPDATE_ENDSTOP B s.old_endstop_bits pins s.count_position 1 .Y_MAX c1
  let c3 := if s.out_bits 2 then
              let c := UPDATE_ENDSTOP B s.old_endstop_bits pins s.count_position 2 .Z_MIN c2
              if cfg.Z_PROBE_ENDSTOP then
                zProbeCheck B s.old_endstop_bits pins s.count_position c
              else c
            else
              let c := UPDATE_ENDSTOP B s.old_endstop_bits pins s.count_position 2 .Z_MAX c2
              if cfg.Z_PROBE_ENDSTOP then
                zProbeCheck B s.old_endstop_bits pins s.count_position c
              else c
  { s with endstop_hit_bits := c3.hit,
           endstops_trigsteps := c3.trig,
           step_events_completed := c3.completed,
           old_endstop_bits := c3.cur }

/-- `TEST_ENDSTOP(Z_MIN) << 0 + TEST_ENDSTOP(Z2_MIN) << 1` (lines 488 and
524) with the C operator precedence it actually has: `+` binds tighter than
`<<` and `<<` associates to the left, so the value computed is
`(a << (0 + b)) << 1`. -/
def zTestVal (a b : Bool) : Nat :=
  (((if a then 1 else 0) <<< (0 + (if b then 1 else 0))) <<< 1) % 2 ^ 8

/-- The `Z_DUAL_ENDSTOPS` variant of the Z-MIN endstop handling
(lines 480-495), with a Z2_MIN pin present. -/
def zDualCheckMin (B : Block) (performing_homing : Bool)
    (old pins : Endstop → Bool) (cpos : Axis → Int) (c : ECtx) : ECtx :=
  let cur := SET_ENDSTOP_BIT pins c.cur .Z_MIN
  let cur := SET_ENDSTOP_BIT pins cur .Z2_MIN
  let z_test := zTestVal (TEST_ENDSTOP cur old .Z_MIN) (TEST_ENDSTOP cur old .Z2_MIN)
  if z_test ≠ 0 ∧ 0 < B.steps 2 then
    { cur := cur,
      trig := Function.update c.trig 2 (cpos 2),
      hit := Function.update c.hit .Z_MIN true,
      completed := if !performing_homing || (z_test == 0x3) then B.step_event_count
                   else c.completed }
  else { c with cur := cur }

/-- The `Z_DUAL_ENDSTOPS` variant of the Z-MAX endstop handling
(lines 515-531), with a Z2_MAX pin present.  Note the hit bit latched is
`BIT(Z_MIN)` (line 528). -/
def zDualCheckMax (B : Block) (performing_homing : Bool)
    (old pins : Endstop → Bool) (cpos : Axis → Int) (c : ECtx) : ECtx :=
  let cur := SET_ENDSTOP_BIT pins c.cur .Z_MAX
  let cur := SET_ENDSTOP_BIT pins cur .Z2_MAX
  let z_test := zTestVal (TEST_ENDSTOP cur old .Z_MAX) (TEST_ENDSTOP cur old .Z2_MAX)
  if z_test ≠ 0 ∧ 0 < B.steps 2 then
    { cur := cur,
      trig := Function.update c.trig 2 (cpos 2),
      hit := Function.update c.hit .Z_MIN true,
      completed := if !performing_homing || (z_test == 0x3) then B.step_event_count
                   else c.completed }
  else { c with cur := cur }

/-- A step-pin edge on an axis, as observed on the driver pins.  An edge is
recorded only when a write changes the pin level. -/
inductive Event where
  | rise (a : Axis)
  | fall (a : Axis)
  deriving DecidableEq, Repr

/-- `STEP_START(axis, AXIS)` (lines 557-562): advance the Bresenham
accumulator; on overflow emit the leading step edge, roll the accumulator
back by `step_event_count` and update the position mirror. -/
def STEP_START (B : Block) (a : Axis) (s : Stepper) : Stepper × List Event :=
  let c := s.counter a + (B.steps a : Int)
  if 0 < c then
    ({ s with counter := Function.update s.counter a (c - (B.step_event_count : Int)),
              count_position := Function.update s.count_position a
                (s.count_position a + s.count_direction a),
              stepPins := Function.update s.stepPins a true },
     if s.stepPins a then [] else [.rise a])
  else
    ({ s with counter := Function.update s.counter a c }, [])

/-- `STEP_END(axis, AXIS)` (line 564): drive the step pin back to its idle
level (unconditionally in the source; an edge occurs only if the pin was
asserted). -/
def STEP_END (a : Axis) (s : Stepper) : Stepper × List Event :=
  ({ s with stepPins := Function.update s.stepPins a false },
   if s.stepPins a then [.fall a] else [])

/-- One iteration of the multi-step loop (lines 568-594, ADVANCE disabled):
`STEP_START` on X, Y, Z, E, then `STEP_END` on X, Y, Z, E, then increment
`step_events_completed`. -/
def stepIteration (B : Block) (s : Stepper) : Stepper × List Event :=
  let r0 := STEP_START B 0 s
  let r1 := STEP_START B 1 r0.1
  let r2 := STEP_START B 2 r1.1
  let r3 := STEP_START B 3 r2.1
  let f0 := STEP_END 0 r3.1
  let f1 := STEP_END 1 f0.1
  let f2 := STEP_END 2 f1.1
  let f3 := STEP_END 3 f2.1
  ({ f3.1 with step_events_completed := f3.1.step_events_completed + 1 },
   r0.2 ++ r1.2 ++ r2.2 ++ r3.2 ++ f0.2 ++ f1.2 ++ f2.2 ++ f3.2)

/-- The `for (i = 0; i < step_loops; i++)` loop (lines 568-594): run up to
`fuel` iterations, breaking as soon as `step_events_completed` reaches
`step_event_count`. -/
def stepLoop (B : Block) : Nat → Stepper → Stepper × List Event
  | 0, s => (s, [])
  | n + 1, s =>
    let r := stepIteration B s
    if B.step_event_count ≤ r.1.step_events_completed then r
    else
      let r2 := stepLoop B n r.1
      (r2.1, r.2 ++ r2.2)

/-- Iterate the Bresenham step event `n` times with no early break: the
step events a block executes to completion, abstracted from how they are
grouped into ISR invocations. -/
def runSteps (B : Block) : Nat → Stepper → Stepper × List Event
  | 0, s => (s, [])
  | n + 1, s =>
    let r := stepIteration B s
    let r2 := runSteps B n r.1
    (r2.1, r.2 ++ r2.2)

/-- The acceleration branch of the trapezoid update (lines 607-618,
ADVANCE disabled).  Returns the updated state and the timer interval. -/
def accelBranch (cfg : Config) (B : Block) (s : Stepper) : Stepper × Nat :=
  let acc1 := (MultiU32X32toH32 s.acceleration_time B.acceleration_rate
                 + B.initial_rate) % 2 ^ 32
  let acc2 := if B.nominal_rate < acc1 then B.nominal_rate else acc1
  let ct := calc_timer cfg acc2
  ({ s with acc_step_rate := acc2,
            acceleration_time := (s.acceleration_time + ct.1) % 2 ^ 32,
            step_loops := ct.2 },
   ct.1)

/-- The local `step_rate` computed by the deceleration branch
(lines 630-643): the 32-bit decrement with underflow clamp to
`final_rate`, then the lower clamp to `final_rate`. -/
def decelStepRate (B : Block) (s : Stepper) : Nat :=
  let step_rate0 := MultiU32X32toH32 s.deceleration_time B.acceleration_rate
  let step_rate1 := if s.acc_step_rate < step_rate0 then B.final_rate
                    else s.acc_step_rate - step_rate0
  if step_rate1 < B.final_rate then B.final_rate else step_rate1

/-- The deceleration branch of the trapezoid update (lines 630-647,
ADVANCE disabled). -/
def decelBranch (cfg : Config) (B : Block) (s : Stepper) : Stepper × Nat :=
  let ct := calc_timer cfg (decelStepRate B s)
  ({ s with deceleration_time := (s.deceleration_time + ct.1) % 2 ^ 32,
            step_loops := ct.2 },
   ct.1)

/-- The three-way trapezoid dispatch (lines 607-662): accel for
`step_events_completed ≤ accelerate_until`, decel for
`> decelerate_after`, otherwise cruise on the cached nominal interval. -/
def trapezoidPhase (cfg : Config) (B : Block) (s : Stepper) : Stepper × Nat :=
  if s.step_events_completed ≤ B.accelerate_until then
    accelBranch cfg B s
  else if B.decelerate_after < s.step_events_completed then
    decelBranch cfg B s
  else
    ({ s with step_loops := s.step_loops_nominal }, s.OCR1A_nominal)

/-- Per-invocation inputs of the ISR: the sampled endstop pin levels
(polarity corrected), the head of the planner queue as seen by
`plan_get_current_block`, and the free-running timer counter `TC_CV`. -/
structure IsrIn where
  pins : Endstop → Bool
  queueHead : Option Block
  TC_CV : Nat
  deriving DecidableEq

/-- What one ISR invocation produced: the new state, the step edges in
emission order, the comparator value programmed, and whether
`plan_discard_current_block` was called. -/
structure IsrOut where
  state : Stepper
  events : List Event
  TC_RC : Nat
  discarded : Bool
  deriving DecidableEq

/-- `HAL_STEP_TIMER_ISR` (lines 346-680) for the configuration described in
the header (ENABLE_HIGH_SPEED_STEPPING, no ADVANCE, no Z_LATE_ENABLE,
no SD_FINISHED_RELEASECOMMAND). -/
def isr (cfg : Config) (inp : IsrIn) (s : Stepper) : IsrOut :=
  if s.cleaning_buffer_counter ≠ 0 then
    { state := { s with current_block := none,
                        cleaning_buffer_counter := s.cleaning_buffer_counter - 1 },
      events := [],
      TC_RC := HAL_timer_stepper_count inp.TC_CV (cfg.HAL_TIMER_RATE / 200),
      discarded := true }
  else
    let s1 := if s.current_block = none then
                match inp.queueHead with
                | some B => loadBlock cfg B s
                | none => s
              else s
    match s1.current_block with
    | none =>
        { state := s1, events := [],
          TC_RC := HAL_timer_stepper_count inp.TC_CV (cfg.HAL_TIMER_RATE / 1000),
          discarded := false }
    | some B =>
        let s2 := if s1.check_endstops then endstopPhase cfg B inp.pins s1 else s1
        let r := stepLoop B s2.step_loops s2
        let t := trapezoidPhase cfg B r.1
        let released := B.step_event_count ≤ t.1.step_events_completed
        { state := if released then { t.1 with current_block := none } else t.1,
          events := r.2,
          TC_RC := HAL_timer_stepper_count inp.TC_CV t.2,
          discarded := released }

/-- `st_set_position` (lines 974-981); the critical section is implicit in
the sequential model. -/
def st_set_position (x y z e : Int) (s : Stepper) : Stepper :=
  { s with count_position := ![x, y, z, e] }

/-- `st_get_position` (lines 989-995). -/
def st_get_position (axis : Axis) (s : Stepper) : Int :=
  s.count_position axis

/-- Pin writes performed by `babystep` on the step pins of the X, Y, Z
motors, recorded in program order.  `true` is the asserted level
(`!INVERT_*_STEP_PIN`). -/
structure BabyEvent where
  axis : Fin 3
  level : Bool
  deriving DecidableEq, Repr

/-- The pin state visible to `babystep`: direction and step pins of the
X, Y, Z motors plus the position mirror it must not touch. -/
structure BabyState where
  dirPin : Fin 3 → Bool
  stepPin : Fin 3 → Bool
  count_position : Fin 3 → Int
  deriving DecidableEq

/-- `BABYSTEP_AXIS(axis, AXIS, INVERT)` (lines 1029-1037): save the
direction pin, drive direction from
`INVERT_*_DIR ^ direction ^ INVERT`, pulse the step pin high then low,
and restore the saved direction pin. -/
def BABYSTEP_AXIS (invert_dir : Bool) (inv : Bool) (direction : Bool)
    (a : Fin 3) (s : BabyState) : BabyState × List BabyEvent :=
  let old_pin := s.dirPin a
  let s := { s with dirPin := Function.update s.dirPin a ((invert_dir ^^ direction) ^^ inv) }
  let s := { s with stepPin := Function.update s.stepPin a true }
  let s := { s with stepPin := Function.update s.stepPin a false }
  ({ s with dirPin := Function.update s.dirPin a old_pin },
   [⟨a, true⟩, ⟨a, false⟩])

/-- Babystep configuration: per-axis direction inversion, the Z babystep
polarity, and whether the machine is a delta. -/
structure BabyConfig where
  INVERT_X_DIR : Bool
  INVERT_Y_DIR : Bool
  INVERT_Z_DIR : Bool
  BABYSTEP_INVERT_Z : Bool
  DELTA : Bool
  deriving DecidableEq, Repr

/-- `babystep(axis, direction)` (lines 1022-1088): one-step nudge.  For a
delta machine a Z babystep drives all three tower motors with a shared
direction (lines 1055-1082); otherwise each axis uses `BABYSTEP_AXIS`. -/
def babystep (cfg : BabyConfig) (axis : Fin 3) (direction : Bool)
    (s : BabyState) : BabyState × List BabyEvent :=
  match axis with
  | 0 => BABYSTEP_AXIS cfg.INVERT_X_DIR false direction 0 s
  | 1 => BABYSTEP_AXIS cfg.INVERT_Y_DIR false direction 1 s
  | 2 =>
    if cfg.DELTA then
      let z_direction := direction ^^ cfg.BABYSTEP_INVERT_Z
      let old_x := s.dirPin 0
      let old_y := s.dirPin 1
      let old_z := s.dirPin 2
      let s := { s with dirPin := fun a =>
                  match a with
                  | 0 => cfg.INVERT_X_DIR ^^ z_direction
                  | 1 => cfg.INVERT_Y_DIR ^^ z_direction
                  | 2 => cfg.INVERT_Z_DIR ^^ z_direction }
      let s := { s with stepPin := fun _ => true }
      let s := { s with stepPin := fun _ => false }
      ({ s with dirPin := fun a => match a with | 0 => old_x | 1 => old_y | 2 => old_z },
       [⟨0, true⟩, ⟨1, true⟩, ⟨2, true⟩, ⟨0, false⟩, ⟨1, false⟩, ⟨2, false⟩])
    else
      BABYSTEP_AXIS cfg.INVERT_Z_DIR cfg.BABYSTEP_INVERT_Z direction 2 s

/-- Every event in the list is a rising edge. -/
def allRises : List Event → Bool
  | [] => true
  | .rise _ :: r => allRises r
  | .fall _ :: _ => false

/-- Every event in the list is a falling edge. -/
def allFalls : List Event → Bool
  | [] => true
  | .fall _ :: r => allFalls r
  | .rise _ :: _ => false

/-- No falling edge is emitted before all rising edges have been emitted:
the trace is a run of rises followed only by falls. -/
def risesThenFalls : List Event → Bool
  | [] => true
  | .rise _ :: r => risesThenFalls r
  | .fall _ :: r => allFalls r

/-- One Bresenham tick of a single axis, for the per-axis analysis of the
tracer: the `(counter, count_position)` pair evolves by `STEP_START`. -/
def axStep (st sec : Nat) (dir : Int) (cp : Int × Int) : Int × Int :=
  let c := cp.1 + (st : Int)
  if 0 < c then (c - (sec : Int), cp.2 + dir) else (c, cp.2)

/-- Iterated single-axis Bresenham ticks. -/
def axRun (st sec : Nat) (dir : Int) : Nat → Int × Int → Int × Int
  | 0, cp => cp
  | n + 1, cp => axRun st sec dir n (axStep st sec dir cp)

/-- A representative configuration for concrete evaluations. -/
def cfgA : Config :=
  { HAL_TIMER_RATE := 1000000, MAX_STEP_FREQUENCY := 40000,
    DOUBLE_STEP_FREQUENCY := 10000, Z_PROBE_ENDSTOP := false,
    INVERT_X_DIR := false, INVERT_Y_DIR := false,
    INVERT_Z_DIR := false, INVERT_E_DIR := false }

/-- An idle stepper state: no block, everything quiescent. -/
def sIdle : Stepper :=
  { current_block := none, cleaning_buffer_counter := 0,
    counter := fun _ => 0, step_events_completed := 0,
    acc_step_rate := 0, acceleration_time := 0, deceleration_time := 0,
    step_loops := 1, step_loops_nominal := 1, OCR1A_nominal := 1000,
    out_bits := fun _ => false, count_position := fun _ => 0,
    count_direction := fun _ => 1, check_endstops := false,
    old_endstop_bits := fun _ => false, endstop_hit_bits := fun _ => false,
    endstops_trigsteps := fun _ => 0,
    dirPins := fun _ => false, stepPins := fun _ => false }

/-- A two-step pure-X cruise block. -/
def Bx : Block :=
  { steps := ![2, 0, 0, 0], step_event_count := 2,
    direction_bits := fun _ => false,
    accelerate_until := 0, decelerate_after := 100,
    acceleration_rate := 0, initial_rate := 1000,
    nominal_rate := 1000, final_rate := 1000 }

/-- A 3-4 diagonal block moving -X, +Y (step_event_count 4). -/
def B34 : Block :=
  { steps := ![3, 4, 0, 0], step_event_count := 4,
    direction_bits := ![true, false, false, false],
    accelerate_until := 0, decelerate_after := 100,
    acceleration_rate := 0, initial_rate := 1000,
    nominal_rate := 1000, final_rate := 1000 }

/-- A five-step -X block used for endstop scenarios. -/
def BxMin : Block :=
  { steps := ![5, 0, 0, 0], step_event_count := 5,
    direction_bits := ![true, false, false, false],
    accelerate_until := 0, decelerate_after := 100,
    acceleration_rate := 0, initial_rate := 1000,
    nominal_rate := 1000, final_rate := 1000 }

/-- A Z-only block for the dual-Z endstop scenarios. -/
def BzDual : Block :=
  { steps := ![0, 0, 1, 0], step_event_count := 20,
    direction_bits := ![false, false, true, false],
    accelerate_until := 0, decelerate_after := 100,
    acceleration_rate := 0, initial_rate := 1000,
    nominal_rate := 1000, final_rate := 1000 }

/-- An acceleration-phase block with a large `acceleration_rate`. -/
def BAcc : Block :=
  { steps := ![100, 0, 0, 0], step_event_count := 100,
    direction_bits := fun _ => false,
    accelerate_until := 100, decelerate_after := 100,
    acceleration_rate := 2 ^ 30, initial_rate := 500,
    nominal_rate := 2000, final_rate := 500 }

/-- A mid-phase trapezoid state for concrete accel/decel evaluation. -/
def sAcc : Stepper :=
  { sIdle with acceleration_time := 2000, deceleration_time := 1500,
               acc_step_rate := 1500 }

/-- A mid-block state: two-step X block in progress, `step_loops = 2`. -/
def s7 : Stepper :=
  { sIdle with current_block := some Bx, counter := fun _ => -1,
               step_loops := 2 }

/-- Quiescent ISR inputs: no endstop asserted, empty queue. -/
def inpQuiet : IsrIn :=
  { pins := fun _ => false, queueHead := none, TC_CV := 0 }

/-- Pin sample with only X_MIN asserted. -/
def pinsXMin : Endstop → Bool := fun e => match e with
  | .X_MIN => true
  | _ => false

/-- Pin sample with only X_MAX asserted. -/
def pinsXMax : Endstop → Bool := fun e => match e with
  | .X_MAX => true
  | _ => false

/-- Pin sample with Z_MIN and Z2_MIN asserted. -/
def pinsZBoth : Endstop → Bool := fun e => match e with
  | .Z_MIN | .Z2_MIN => true
  | _ => false

/-- Pin sample with only Z2_MIN asserted. -/
def pinsZ2Only : Endstop → Bool := fun e => match e with
  | .Z2_MIN => true
  | _ => false

/-- A state executing `BxMin` towards X_MIN with the endstop already seen
asserted on the previous tick. -/
def sC2 : Stepper :=
  { sIdle with current_block := some BxMin, check_endstops := true,
               out_bits := ![true, false, false, false],
               count_direction := ![-1, 1, 1, 1],
               counter := fun _ => -2,
               old_endstop_bits := pinsXMin }

/-- ISR inputs sampling an asserted X_MIN. -/
def inpC2 : IsrIn := { pins := pinsXMin, queueHead := none, TC_CV := 0 }

/-- A state moving in +X (so the X_MAX endstop is the gated one) with
X_MAX already seen asserted on the previous tick. -/
def sC10 : Stepper :=
  { sIdle with current_block := some BxMin, check_endstops := true,
               old_endstop_bits := pinsXMax }

/-- An endstop-check scratch context with `completed = 7`, distinct from
`BzDual.step_event_count = 20`. -/
def ecZ : ECtx :=
  { cur := fun _ => false, hit := fun _ => false,
    trig := fun _ => 0, completed := 7 }

/-- The in-block body of the ISR (endstop check, step loop, trapezoid
update, timer programming, release check): the branch `isr` takes when
`cleaning_buffer_counter` is zero and `current_block` is `some B`. -/
def isrMain (cfg : Config) (inp : IsrIn) (B : Block) (s : Stepper) : IsrOut :=
  let s2 := if s.check_endstops then endstopPhase cfg B inp.pins s else s
  let r := stepLoop B s2.step_loops s2
  let t := trapezoidPhase cfg B r.1
  let released := B.step_event_count ≤ t.1.step_events_completed
  { state := if released then { t.1 with current_block := none } else t.1,
    events := r.2,
    TC_RC := HAL_timer_stepper_count inp.TC_CV t.2,
    discarded := released }

/-- C8: the re-arm helper writes the requested target to the comparator
while the free-running counter plus the 42-count guard has not passed it,
and otherwise clamps the programmed target forward to counter + guard;
in all cases the programmed target is at least counter + guard, so a
re-arm whose target is already in the past is never lost. -/
theorem rearm_clamp (TC_CV count : Nat) (h : TC_CV + 42 < 2 ^ 32) :
    (TC_CV + 42 ≤ count → HAL_timer_stepper_count TC_CV count = count)
  ∧ (count < TC_CV + 42 → HAL_timer_stepper_count TC_CV count = TC_CV + 42)
  ∧ TC_CV + 42 ≤ HAL_timer_stepper_count TC_CV count := by
  simp only [HAL_timer_stepper_count]
  rw [Nat.mod_eq_of_lt h]
  split_ifs with h1 <;> omega

/-- Witness for C8 at a concrete in-the-past target. -/
theorem rearm_clamp_witness :
    100 + 42 < 2 ^ 32 ∧ 5 < 100 + 42 ∧ HAL_timer_stepper_count 100 5 = 142 :=
  ⟨by norm_num, by norm_num, (rearm_clamp 100 5 (by norm_num)).2.1 (by norm_num)⟩

/-- C3: concrete evaluation of the dual-Z endstop check at the failing
input.  Because `TEST_ENDSTOP(Z_MIN) << 0 + TEST_ENDSTOP(Z2_MIN) << 1`
parses as `(a << (0 + b)) << 1`, the computed `z_test` is 4 (not 3) when
both endstops are latched and 0 (not 2) when only Z2 is latched.  Hence,
contrary to the code's own comments and the claim: during homing a
confirmed latch of both endstops does not force
`step_events_completed = step_event_count` (it stays 7 here), and outside
homing a confirmed latch of only Z2 neither terminates the block nor
latches a hit bit. -/
theorem z_dual_precedence_eval :
    zTestVal true true = 4
  ∧ zTestVal false true = 0
  ∧ (zDualCheckMin BzDual true pinsZBoth pinsZBoth (fun _ => 0) ecZ).completed = 7
  ∧ (zDualCheckMin BzDual true pinsZBoth pinsZBoth (fun _ => 0) ecZ).hit .Z_MIN = true
  ∧ (zDualCheckMin BzDual false pinsZ2Only pinsZ2Only (fun _ => 0) ecZ).completed = 7
  ∧ (zDualCheckMin BzDual false pinsZ2Only pinsZ2Only (fun _ => 0) ecZ).hit .Z_MIN = false := by
  refine ⟨rfl, rfl, ?_, ?_, ?_, ?_⟩ <;> decide

/-- C9: a babystep call leaves every direction pin exactly as it found it,
never touches `count_position`, and emits exactly one step pulse on the
requested axis — on all three tower motors simultaneously when the machine
is a delta and the axis is Z. -/
theorem babystep_frame (cfg : BabyConfig) (axis : Fin 3) (direction : Bool)
    (s : BabyState) :
    (babystep cfg axis direction s).1.dirPin = s.dirPin
  ∧ (babystep cfg axis direction s).1.count_position = s.count_position
  ∧ (babystep cfg axis direction s).2 =
      (if cfg.DELTA = true ∧ axis = 2 then
         [⟨0, true⟩, ⟨1, true⟩, ⟨2, true⟩, ⟨0, false⟩, ⟨1, false⟩, ⟨2, false⟩]
       else [⟨axis, true⟩, ⟨axis, false⟩]) := by
  fin_cases axis <;> cases hD : cfg.DELTA <;>
    refine ⟨?_, ?_, ?_⟩ <;>
      simp [babystep, BABYSTEP_AXIS, hD] <;>
        (try funext a) <;> (try fin_cases a) <;> rfl

/-- With 32-bit operands the 64-bit intermediate of `MultiU32X32toH32`
cannot wrap, so the macro computes the exact rounded product-shift. -/
theorem MultiU32X32toH32_exact (a b : Nat) (ha : a < 2 ^ 32) (hb : b < 2 ^ 32) :
    MultiU32X32toH32 a b = (a * b + 0x80000000) / 2 ^ 32 := by
  unfold MultiU32X32toH32
  rw [Nat.mod_eq_of_lt]
  have h1 : a * b ≤ (2 ^ 32 - 1) * (2 ^ 32 - 1) :=
    Nat.mul_le_mul (by omega) (by omega)
  norm_num at h1 ⊢
  omega

/-- C4: in the acceleration branch the new step rate is
`min(nominal_rate, initial_rate + ⌊(acceleration_rate · acceleration_time
+ 0x80000000) / 2³²⌋)` — the 64-bit intermediate with the 2³¹ rounding
constant added before the shift by 32 — the timer interval is `calc_timer`
of that rate, and `acceleration_time` is incremented by the timer value.
The last two hypotheses are the 32-bit representability side conditions of
the C additions. -/
theorem accel_branch_spec (cfg : Config) (B : Block) (s : Stepper)
    (h1 : s.acceleration_time < 2 ^ 32) (h2 : B.acceleration_rate < 2 ^ 32)
    (h3 : B.initial_rate
            + (B.acceleration_rate * s.acceleration_time + 0x80000000) / 2 ^ 32 < 2 ^ 32)
    (h4 : s.acceleration_time + (accelBranch cfg B s).2 < 2 ^ 32) :
    (accelBranch cfg B s).1.acc_step_rate
        = min B.nominal_rate
            (B.initial_rate
              + (B.acceleration_rate * s.acceleration_time + 0x80000000) / 2 ^ 32)
  ∧ (accelBranch cfg B s).2
        = (calc_timer cfg ((accelBranch cfg B s).1.acc_step_rate)).1
  ∧ (accelBranch cfg B s).1.acceleration_time
        = s.acceleration_time + (accelBranch cfg B s).2 := by
  have hm : MultiU32X32toH32 s.acceleration_time B.acceleration_rate
      = (B.acceleration_rate * s.acceleration_time + 0x80000000) / 2 ^ 32 := by
    rw [MultiU32X32toH32_exact _ _ h1 h2, Nat.mul_comm]
  have hacc1 : (MultiU32X32toH32 s.acceleration_time B.acceleration_rate
      + B.initial_rate) % 2 ^ 32
      = B.initial_rate
          + (B.acceleration_rate * s.acceleration_time + 0x80000000) / 2 ^ 32 := by
    rw [hm, Nat.add_comm, Nat.mod_eq_of_lt h3]
  refine ⟨?_, rfl, ?_⟩
  · show (if B.nominal_rate < (MultiU32X32toH32 s.acceleration_time B.acceleration_rate
        + B.initial_rate) % 2 ^ 32 then B.nominal_rate
        else (MultiU32X32toH32 s.acceleration_time B.acceleration_rate
        + B.initial_rate) % 2 ^ 32) = _
    rw [hacc1]
    split_ifs with h <;> omega
  · exact Nat.mod_eq_of_lt h4

/-- Witness for C4: with `acceleration_rate = 2³⁰` and
`acceleration_time = 2000` the rounded product-shift is 500, so the rate is
`min(2000, 500 + 500) = 1000` and the accumulated time becomes 3000. -/
theorem accel_branch_spec_witness :
    sAcc.acceleration_time < 2 ^ 32 ∧ BAcc.acceleration_rate < 2 ^ 32
  ∧ (accelBranch cfgA BAcc sAcc).1.acc_step_rate = 1000
  ∧ (accelBranch cfgA BAcc sAcc).1.acceleration_time = 3000 := by
  have h := accel_branch_spec cfgA BAcc sAcc (by decide) (by decide) (by decide) (by decide)
  refine ⟨by decide, by decide, ?_, ?_⟩
  · rw [h.1]; decide
  · rw [h.2.2]; decide

/-- C5: in the deceleration branch, with
`D = ⌊(acceleration_rate · deceleration_time + 2³¹) / 2³²⌋`: if
`D > acc_step_rate` the step rate is clamped to `final_rate`, otherwise it
is `max(final_rate, acc_step_rate − D)`; the timer interval is
`calc_timer` of that rate and `deceleration_time` is incremented by the
timer value. -/
theorem decel_branch_spec (cfg : Config) (B : Block) (s : Stepper)
    (h1 : s.deceleration_time < 2 ^ 32) (h2 : B.acceleration_rate < 2 ^ 32)
    (h4 : s.deceleration_time + (decelBranch cfg B s).2 < 2 ^ 32) :
    decelStepRate B s
        = (if s.acc_step_rate
              < (B.acceleration_rate * s.deceleration_time + 0x80000000) / 2 ^ 32
           then B.final_rate
           else max B.final_rate
             (s.acc_step_rate
               - (B.acceleration_rate * s.deceleration_time + 0x80000000) / 2 ^ 32))
  ∧ (decelBranch cfg B s).2 = (calc_timer cfg (decelStepRate B s)).1
  ∧ (decelBranch cfg B s).1.deceleration_time
        = s.deceleration_time + (decelBranch cfg B s).2 := by
  have hm : MultiU32X32toH32 s.deceleration_time B.acceleration_rate
      = (B.acceleration_rate * s.deceleration_time + 0x80000000) / 2 ^ 32 := by
    rw [MultiU32X32toH32_exact _ _ h1 h2, Nat.mul_comm]
  refine ⟨?_, rfl, ?_⟩
  · simp only [decelStepRate, hm]
    split_ifs with h5 h6 h7 <;> omega
  · exact Nat.mod_eq_of_lt h4

/-- Witness for C5: `D = 375 ≤ acc_step_rate = 1500`, so the rate is
`max(500, 1125) = 1125`, the timer is `10⁶ / 1125 = 888`, and the
accumulated deceleration time becomes 2388. -/
theorem decel_branch_spec_witness :
    sAcc.deceleration_time < 2 ^ 32 ∧ BAcc.acceleration_rate < 2 ^ 32
  ∧ decelStepRate BAcc sAcc = 1125
  ∧ (decelBranch cfgA BAcc sAcc).1.deceleration_time = 2388 := by
  have h := decel_branch_spec cfgA BAcc sAcc (by decide) (by decide) (by decide)
  refine ⟨by decide, by decide, ?_, ?_⟩
  · rw [h.1]; decide
  · rw [h.2.2]; decide

/-- `UPDATE_ENDSTOP` touches no hit bit other than the MIN bit of its
axis. -/
theorem UPDATE_hit_other {B : Block} {old pins : Endstop → Bool} {cpos : Axis → Int}
    {axis : Fin 3} {e : Endstop} {c : ECtx} {e2 : Endstop} (h : e2 ≠ minBit axis) :
    (UPDATE_ENDSTOP B old pins cpos axis e c).hit e2 = c.hit e2 := by
  simp only [UPDATE_ENDSTOP]
  split
  · exact Function.update_noteq h _ _
  · rfl

/-- `UPDATE_ENDSTOP` never clears a hit bit. -/
theorem UPDATE_hit_mono {B : Block} {old pins : Endstop → Bool} {cpos : Axis → Int}
    {axis : Fin 3} {e : Endstop} {c : ECtx} {e2 : Endstop} (h : c.hit e2 = true) :
    (UPDATE_ENDSTOP B old pins cpos axis e c).hit e2 = true := by
  simp only [UPDATE_ENDSTOP]
  split
  · rcases eq_or_ne e2 (minBit axis) with he | he
    · subst he; exact Function.update_same _ _ _
    · exact (Function.update_noteq he _ _).trans h
  · exact h

/-- A confirmed trigger on an axis with nonzero steps latches the axis MIN
bit. -/
theorem UPDATE_hit_fires {B : Block} {old pins : Endstop → Bool} {cpos : Axis → Int}
    {axis : Fin 3} {e : Endstop} {c : ECtx}
    (hp : pins e = true) (ho : old e = true) (hs : 0 < B.steps axis.castSucc) :
    (UPDATE_ENDSTOP B old pins cpos axis e c).hit (minBit axis) = true := by
  simp only [UPDATE_ENDSTOP]
  rw [if_pos]
  · exact Function.update_same _ _ _
  · simp [TEST_ENDSTOP, SET_ENDSTOP_BIT, Function.update_same, hp, ho, hs]

/-- A confirmed trigger on an axis with nonzero steps records the trigger
position from `count_position`. -/
theorem UPDATE_trig_fires {B : Block} {old pins : Endstop → Bool} {cpos : Axis → Int}
    {axis : Fin 3} {e : Endstop} {c : ECtx}
    (hp : pins e = true) (ho : old e = true) (hs : 0 < B.steps axis.castSucc) :
    (UPDATE_ENDSTOP B old pins cpos axis e c).trig axis = cpos axis.castSucc := by
  simp only [UPDATE_ENDSTOP]
  rw [if_pos]
  · exact Function.update_same _ _ _
  · simp [TEST_ENDSTOP, SET_ENDSTOP_BIT, Function.update_same, hp, ho, hs]

/-- A confirmed trigger on an axis with nonzero steps forces
`step_events_completed` to `step_event_count`. -/
theorem UPDATE_completed_fires {B : Block} {old pins : Endstop → Bool} {cpos : Axis → Int}
    {axis : Fin 3} {e : Endstop} {c : ECtx}
    (hp : pins e = true) (ho : old e = true) (hs : 0 < B.steps axis.castSucc) :
    (UPDATE_ENDSTOP B old pins cpos axis e c).completed = B.step_event_count := by
  simp only [UPDATE_ENDSTOP]
  rw [if_pos]
  · simp [TEST_ENDSTOP, SET_ENDSTOP_BIT, Function.update_same, hp, ho, hs]

/-- Without agreement of both samples, `UPDATE_ENDSTOP` only refreshes the
sampled bit and leaves hit bits, trigger positions and the step counter
untouched. -/
theorem UPDATE_no_trigger {B : Block} {old pins : Endstop → Bool} {cpos : Axis → Int}
    {axis : Fin 3} {e : Endstop} {c : ECtx}
    (h : ¬(pins e = true ∧ old e = true)) :
    UPDATE_ENDSTOP B old pins cpos axis e c
      = { c with cur := SET_ENDSTOP_BIT pins c.cur e } := by
  simp only [UPDATE_ENDSTOP]
  rw [if_neg]
  simp only [TEST_ENDSTOP, SET_ENDSTOP_BIT, Function.update_same, Bool.and_eq_true,
             decide_eq_true_eq, not_and]
  intro hand
  rcases hand with ⟨hpe, hoe⟩
  exact absurd ⟨hpe, hoe⟩ h

/-- `UPDATE_ENDSTOP` preserves an already-forced step counter. -/
theorem UPDATE_completed_stable {B : Block} {old pins : Endstop → Bool} {cpos : Axis → Int}
    {axis : Fin 3} {e : Endstop} {c : ECtx}
    (h : c.completed = B.step_event_count) :
    (UPDATE_ENDSTOP B old pins cpos axis e c).completed = B.step_event_count := by
  simp only [UPDATE_ENDSTOP]
  split
  · rfl
  · exact h

/-- The Z-probe block touches no hit bit other than `Z_MIN` and
`Z_PROBE`. -/
theorem zProbe_hit_other {B : Block} {old pins : Endstop → Bool} {cpos : Axis → Int}
    {c : ECtx} {e2 : Endstop} (h1 : e2 ≠ Endstop.Z_MIN) (h2 : e2 ≠ Endstop.Z_PROBE) :
    (zProbeCheck B old pins cpos c).hit e2 = c.hit e2 := by
  simp only [zProbeCheck]
  split
  · exact (Function.update_noteq h2 _ _).trans (UPDATE_hit_other h1)
  · exact UPDATE_hit_other h1

/-- The Z-probe block never clears a hit bit. -/
theorem zProbe_hit_mono {B : Block} {old pins : Endstop → Bool} {cpos : Axis → Int}
    {c : ECtx} {e2 : Endstop} (h : c.hit e2 = true) :
    (zProbeCheck B old pins cpos c).hit e2 = true := by
  simp only [zProbeCheck]
  split
  · rcases eq_or_ne e2 Endstop.Z_PROBE with he | he
    · subst he
      exact Function.update_same Endstop.Z_PROBE true
        (UPDATE_ENDSTOP B old pins cpos 2 Endstop.Z_PROBE c).hit
    · exact (Function.update_noteq he true
        (UPDATE_ENDSTOP B old pins cpos 2 Endstop.Z_PROBE c).hit).trans (UPDATE_hit_mono h)
  · exact UPDATE_hit_mono h

/-- The Z-probe block preserves an already-forced step counter. -/
theorem zProbe_completed_stable {B : Block} {old pins : Endstop → Bool} {cpos : Axis → Int}
    {c : ECtx} (h : c.completed = B.step_event_count) :
    (zProbeCheck B old pins cpos c).completed = B.step_event_count := by
  simp only [zProbeCheck]
  split
  · exact UPDATE_completed_stable h
  · exact UPDATE_completed_stable h

/-- With the Z endstop latched in both samples, the computed `z_test` is
nonzero regardless of the Z2 endstop. -/
theorem zTestVal_true_ne (b : Bool) : zTestVal true b ≠ 0 := by
  cases b <;> decide

/-- The dual-Z MAX check touches no hit bit other than `Z_MIN`. -/
theorem zDualMax_hit_other {B : Block} {homing : Bool} {old pins : Endstop → Bool}
    {cpos : Axis → Int} {c : ECtx} {e2 : Endstop} (h : e2 ≠ Endstop.Z_MIN) :
    (zDualCheckMax B homing old pins cpos c).hit e2 = c.hit e2 := by
  simp only [zDualCheckMax]
  split
  · exact Function.update_noteq h true c.hit
  · rfl

/-- The dual-Z MIN check touches no hit bit other than `Z_MIN`. -/
theorem zDualMin_hit_other {B : Block} {homing : Bool} {old pins : Endstop → Bool}
    {cpos : Axis → Int} {c : ECtx} {e2 : Endstop} (h : e2 ≠ Endstop.Z_MIN) :
    (zDualCheckMin B homing old pins cpos c).hit e2 = c.hit e2 := by
  simp only [zDualCheckMin]
  split
  · exact Function.update_noteq h true c.hit
  · rfl

/-- A confirmed Z_MAX trigger through the dual-Z path latches `Z_MIN`
(source line 528). -/
theorem zDualMax_fires {B : Block} {homing : Bool} {old pins : Endstop → Bool}
    {cpos : Axis → Int} {c : ECtx}
    (hp : pins Endstop.Z_MAX = true) (ho : old Endstop.Z_MAX = true)
    (hs : 0 < B.steps 2) :
    (zDualCheckMax B homing old pins cpos c).hit Endstop.Z_MIN = true := by
  simp only [zDualCheckMax]
  rw [if_pos]
  · exact Function.update_same Endstop.Z_MIN true c.hit
  · refine ⟨?_, hs⟩
    have hcur : TEST_ENDSTOP
        (SET_ENDSTOP_BIT pins (SET_ENDSTOP_BIT pins c.cur Endstop.Z_MAX) Endstop.Z2_MAX)
        old Endstop.Z_MAX = true := by
      simp [TEST_ENDSTOP, SET_ENDSTOP_BIT, Function.update, hp, ho]
    rw [hcur]
    exact zTestVal_true_ne _

/-- The Cartesian endstop check touches no hit bit outside
`{X_MIN, Y_MIN, Z_MIN, Z_PROBE}`. -/
theorem endstopPhase_hit_pres (cfg : Config) (B : Block) (pins : Endstop → Bool)
    (s : Stepper) (e2 : Endstop) (h0 : e2 ≠ minBit 0) (h1 : e2 ≠ minBit 1)
    (h2 : e2 ≠ minBit 2) (h3 : e2 ≠ Endstop.Z_PROBE) :
    (endstopPhase cfg B pins s).endstop_hit_bits e2 = s.endstop_hit_bits e2 := by
  have h2' : e2 ≠ Endstop.Z_MIN := h2
  simp only [endstopPhase]
  split_ifs <;>
    simp only [UPDATE_hit_other h0, UPDATE_hit_other h1, UPDATE_hit_other h2,
               zProbe_hit_other h2' h3]

/-- A confirmed X_MAX trigger (movement in +X) latches `X_MIN`. -/
theorem endstopPhase_hit_XMAX (cfg : Config) (B : Block) (pins : Endstop → Bool)
    (s : Stepper) (h0 : s.out_bits 0 = false) (hp : pins Endstop.X_MAX = true)
    (ho : s.old_endstop_bits Endstop.X_MAX = true) (hs : 0 < B.steps 0) :
    (endstopPhase cfg B pins s).endstop_hit_bits Endstop.X_MIN = true := by
  simp only [endstopPhase, h0, Bool.false_eq_true, if_false]
  split_ifs <;>
    first
      | exact zProbe_hit_mono (UPDATE_hit_mono (UPDATE_hit_mono (UPDATE_hit_fires hp ho hs)))
      | exact UPDATE_hit_mono (UPDATE_hit_mono (UPDATE_hit_fires hp ho hs))

/-- A confirmed Y_MAX trigger (movement in +Y) latches `Y_MIN`. -/
theorem endstopPhase_hit_YMAX (cfg : Config) (B : Block) (pins : Endstop → Bool)
    (s : Stepper) (h1 : s.out_bits 1 = false) (hp : pins Endstop.Y_MAX = true)
    (ho : s.old_endstop_bits Endstop.Y_MAX = true) (hs : 0 < B.steps 1) :
    (endstopPhase cfg B pins s).endstop_hit_bits Endstop.Y_MIN = true := by
  simp only [endstopPhase, h1, Bool.false_eq_true, if_false]
  split_ifs <;>
    first
      | exact zProbe_hit_mono (UPDATE_hit_mono (UPDATE_hit_fires hp ho hs))
      | exact UPDATE_hit_mono (UPDATE_hit_fires hp ho hs)

/-- A confirmed Z_MAX trigger (movement in +Z, single Z endstop) latches
`Z_MIN`. -/
theorem endstopPhase_hit_ZMAX (cfg : Config) (B : Block) (pins : Endstop → Bool)
    (s : Stepper) (h2 : s.out_bits 2 = false) (hp : pins Endstop.Z_MAX = true)
    (ho : s.old_endstop_bits Endstop.Z_MAX = true) (hs : 0 < B.steps 2) :
    (endstopPhase cfg B pins s).endstop_hit_bits Endstop.Z_MIN = true := by
  simp only [endstopPhase, h2, Bool.false_eq_true, if_false]
  split_ifs <;>
    first
      | exact zProbe_hit_mono (UPDATE_hit_fires hp ho hs)
      | exact UPDATE_hit_fires hp ho hs

/-- C10: confirmed MAX-endstop triggers latch the MIN bit of their axis —
through `UPDATE_ENDSTOP` for X_MAX, Y_MAX and the single-Z Z_MAX, and
explicitly in the dual-Z Z_MAX path — and no path of the endstop check
ever sets a hit bit outside `{X_MIN, Y_MIN, Z_MIN, Z_PROBE}`, so
`endstop_hit_bits` never contains a MAX bit. -/
theorem endstop_hit_only_min_bits (cfg : Config) (B : Block)
    (pins old2 : Endstop → Bool) (s : Stepper) (homing : Bool)
    (cpos : Axis → Int) (c : ECtx) (e2 : Endstop) :
    (e2.isMinOrProbe = false →
       (endstopPhase cfg B pins s).endstop_hit_bits e2 = s.endstop_hit_bits e2)
  ∧ (e2.isMinOrProbe = false →
       (zDualCheckMin B homing old2 pins cpos c).hit e2 = c.hit e2)
  ∧ (e2.isMinOrProbe = false →
       (zDualCheckMax B homing old2 pins cpos c).hit e2 = c.hit e2)
  ∧ (s.out_bits 0 = false → pins Endstop.X_MAX = true →
       s.old_endstop_bits Endstop.X_MAX = true → 0 < B.steps 0 →
       (endstopPhase cfg B pins s).endstop_hit_bits Endstop.X_MIN = true)
  ∧ (s.out_bits 1 = false → pins Endstop.Y_MAX = true →
       s.old_endstop_bits Endstop.Y_MAX = true → 0 < B.steps 1 →
       (endstopPhase cfg B pins s).endstop_hit_bits Endstop.Y_MIN = true)
  ∧ (s.out_bits 2 = false → pins Endstop.Z_MAX = true →
       s.old_endstop_bits Endstop.Z_MAX = true → 0 < B.steps 2 →
       (endstopPhase cfg B pins s).endstop_hit_bits Endstop.Z_MIN = true)
  ∧ (pins Endstop.Z_MAX = true → old2 Endstop.Z_MAX = true → 0 < B.steps 2 →
       (zDualCheckMax B homing old2 pins cpos c).hit Endstop.Z_MIN = true) := by
  refine ⟨?_, ?_, ?_,
          fun h0 hp ho hs => endstopPhase_hit_XMAX cfg B pins s h0 hp ho hs,
          fun h1 hp ho hs => endstopPhase_hit_YMAX cfg B pins s h1 hp ho hs,
          fun h2 hp ho hs => endstopPhase_hit_ZMAX cfg B pins s h2 hp ho hs,
          fun hp ho hs => zDualMax_fires hp ho hs⟩
  · intro he
    have hX : e2 ≠ minBit 0 := by
      rintro rfl; simp [Endstop.isMinOrProbe, minBit] at he
    have hY : e2 ≠ minBit 1 := by
      rintro rfl; simp [Endstop.isMinOrProbe, minBit] at he
    have hZ : e2 ≠ minBit 2 := by
      rintro rfl; simp [Endstop.isMinOrProbe, minBit] at he
    have hP : e2 ≠ Endstop.Z_PROBE := by
      rintro rfl; simp [Endstop.isMinOrProbe] at he
    exact endstopPhase_hit_pres cfg B pins s e2 hX hY hZ hP
  · intro he
    have hZ : e2 ≠ Endstop.Z_MIN := by
      rintro rfl; simp [Endstop.isMinOrProbe] at he
    exact zDualMin_hit_other hZ
  · intro he
    have hZ : e2 ≠ Endstop.Z_MIN := by
      rintro rfl; simp [Endstop.isMinOrProbe] at he
    exact zDualMax_hit_other hZ

/-- Witness for C10: a confirmed X_MAX trigger during a +X move latches
`X_MIN`, and the `X_MAX` bit itself stays clear. -/
theorem endstop_hit_only_min_bits_witness :
    Endstop.isMinOrProbe .X_MAX = false
  ∧ sC10.out_bits 0 = false ∧ pinsXMax .X_MAX = true
  ∧ sC10.old_endstop_bits .X_MAX = true ∧ 0 < BxMin.steps 0
  ∧ (endstopPhase cfgA BxMin pinsXMax sC10).endstop_hit_bits .X_MIN = true
  ∧ (endstopPhase cfgA BxMin pinsXMax sC10).endstop_hit_bits .X_MAX = false := by
  have h := endstop_hit_only_min_bits cfgA BxMin pinsXMax (fun _ => false) sC10 false
    (fun _ => 0) ecZ Endstop.X_MAX
  refine ⟨by decide, by decide, by decide, by decide, by decide, ?_, ?_⟩
  · exact h.2.2.2.1 (by decide) (by decide) (by decide) (by decide)
  · rw [h.1 (by decide)]; decide

/-- A confirmed X_MIN trigger during a -X move forces
`step_events_completed` to `step_event_count` through the whole endstop
check. -/
theorem endstopPhase_forced_X (cfg : Config) (B : Block) (pins : Endstop → Bool)
    (s : Stepper) (hout : s.out_bits 0 = true) (hp : pins Endstop.X_MIN = true)
    (ho : s.old_endstop_bits Endstop.X_MIN = true) (hs : 0 < B.steps 0) :
    (endstopPhase cfg B pins s).step_events_completed = B.step_event_count := by
  simp only [endstopPhase, hout, if_true]
  split_ifs <;>
    first
      | exact zProbe_completed_stable
          (UPDATE_completed_stable (UPDATE_completed_stable (UPDATE_completed_fires hp ho hs)))
      | exact UPDATE_completed_stable
          (UPDATE_completed_stable (UPDATE_completed_fires hp ho hs))

/-- The endstop check never touches `current_block`. -/
theorem endstopPhase_block (cfg : Config) (B : Block) (pins : Endstop → Bool)
    (s : Stepper) : (endstopPhase cfg B pins s).current_block = s.current_block := rfl

/-- The endstop check never touches `step_loops`. -/
theorem endstopPhase_step_loops (cfg : Config) (B : Block) (pins : Endstop → Bool)
    (s : Stepper) : (endstopPhase cfg B pins s).step_loops = s.step_loops := rfl

/-- `UPDATE_ENDSTOP` either propagates a step-counter fact or forces the
counter to `step_event_count`. -/
theorem UPDATE_completed_or {X : Nat} {B : Block} {old pins : Endstop → Bool}
    {cpos : Axis → Int} {axis : Fin 3} {e : Endstop} {c : ECtx}
    (h : c.completed = X ∨ c.completed = B.step_event_count) :
    (UPDATE_ENDSTOP B old pins cpos axis e c).completed = X ∨
    (UPDATE_ENDSTOP B old pins cpos axis e c).completed = B.step_event_count := by
  simp only [UPDATE_ENDSTOP]
  split
  · exact Or.inr rfl
  · exact h

/-- The Z-probe block either propagates a step-counter fact or forces the
counter. -/
theorem zProbe_completed_or {X : Nat} {B : Block} {old pins : Endstop → Bool}
    {cpos : Axis → Int} {c : ECtx}
    (h : c.completed = X ∨ c.completed = B.step_event_count) :
    (zProbeCheck B old pins cpos c).completed = X ∨
    (zProbeCheck B old pins cpos c).completed = B.step_event_count := by
  simp only [zProbeCheck]
  split
  · exact UPDATE_completed_or h
  · exact UPDATE_completed_or h

/-- The whole endstop check leaves `step_events_completed` alone or forces
it to `step_event_count`. -/
theorem endstopPhase_completed_cases (cfg : Config) (B : Block)
    (pins : Endstop → Bool) (s : Stepper) :
    (endstopPhase cfg B pins s).step_events_completed = s.step_events_completed ∨
    (endstopPhase cfg B pins s).step_events_completed = B.step_event_count := by
  simp only [endstopPhase]
  split_ifs <;>
    first
      | exact zProbe_completed_or
          (UPDATE_completed_or (UPDATE_completed_or (UPDATE_completed_or (Or.inl rfl))))
      | exact UPDATE_completed_or
          (UPDATE_completed_or (UPDATE_completed_or (Or.inl rfl)))

/-- `STEP_END` as an explicit record update. -/
theorem STEP_END_eq (a : Axis) (s : Stepper) :
    STEP_END a s = ({ s with stepPins := Function.update s.stepPins a false },
                    if s.stepPins a then [Event.fall a] else []) := rfl

/-- `STEP_START` leaves `step_events_completed` alone. -/
theorem STEP_START_completed (B : Block) (a : Axis) (s : Stepper) :
    (STEP_START B a s).1.step_events_completed = s.step_events_completed := by
  simp only [STEP_START]
  split <;> rfl

/-- `STEP_START` leaves `current_block` alone. -/
theorem STEP_START_block (B : Block) (a : Axis) (s : Stepper) :
    (STEP_START B a s).1.current_block = s.current_block := by
  simp only [STEP_START]
  split <;> rfl

/-- `STEP_START` leaves `count_direction` alone. -/
theorem STEP_START_dir (B : Block) (a : Axis) (s : Stepper) :
    (STEP_START B a s).1.count_direction = s.count_direction := by
  simp only [STEP_START]
  split <;> rfl

/-- `STEP_START` on axis `b` leaves the counter of a different axis `a`
alone. -/
theorem STEP_START_counter_other (B : Block) {a b : Axis} (h : a ≠ b) (s : Stepper) :
    (STEP_START B b s).1.counter a = s.counter a := by
  simp only [STEP_START]
  split
  · exact Function.update_noteq h _ _
  · exact Function.update_noteq h _ _

/-- `STEP_START` on axis `b` leaves the position of a different axis `a`
alone. -/
theorem STEP_START_pos_other (B : Block) {a b : Axis} (h : a ≠ b) (s : Stepper) :
    (STEP_START B b s).1.count_position a = s.count_position a := by
  simp only [STEP_START]
  split
  · exact Function.update_noteq h _ _
  · rfl

/-- On its own axis, `STEP_START` evolves `(counter, count_position)` by
exactly one single-axis Bresenham tick. -/
theorem STEP_START_self (B : Block) (a : Axis) (s : Stepper) :
    (STEP_START B a s).1.counter a
        = (axStep (B.steps a) B.step_event_count (s.count_direction a)
            (s.counter a, s.count_position a)).1
  ∧ (STEP_START B a s).1.count_position a
        = (axStep (B.steps a) B.step_event_count (s.count_direction a)
            (s.counter a, s.count_position a)).2 := by
  simp only [STEP_START, axStep]
  split
  · exact ⟨Function.update_same a _ s.counter, Function.update_same a _ s.count_position⟩
  · exact ⟨Function.update_same a _ s.counter, rfl⟩

/-- One step iteration increments `step_events_completed` by exactly 1. -/
theorem stepIteration_completed (B : Block) (s : Stepper) :
    (stepIteration B s).1.step_events_completed = s.step_events_completed + 1 := by
  simp only [stepIteration, STEP_END_eq, STEP_START_completed]

/-- One step iteration leaves `current_block` alone. -/
theorem stepIteration_block (B : Block) (s : Stepper) :
    (stepIteration B s).1.current_block = s.current_block := by
  simp only [stepIteration, STEP_END_eq, STEP_START_block]

/-- One step iteration leaves `count_direction` alone. -/
theorem stepIteration_dir (B : Block) (s : Stepper) :
    (stepIteration B s).1.count_direction = s.count_direction := by
  simp only [stepIteration, STEP_END_eq, STEP_START_dir]

/-- Counter component of `STEP_START_self`. -/
theorem STEP_START_counter_self (B : Block) (a : Axis) (s : Stepper) :
    (STEP_START B a s).1.counter a
        = (axStep (B.steps a) B.step_event_count (s.count_direction a)
            (s.counter a, s.count_position a)).1 := (STEP_START_self B a s).1

/-- Position component of `STEP_START_self`. -/
theorem STEP_START_pos_self (B : Block) (a : Axis) (s : Stepper) :
    (STEP_START B a s).1.count_position a
        = (axStep (B.steps a) B.step_event_count (s.count_direction a)
            (s.counter a, s.count_position a)).2 := (STEP_START_self B a s).2

/-- Per-axis projection: one step iteration evolves each axis's
`(counter, count_position)` pair by one single-axis Bresenham tick. -/
theorem stepIteration_axis (B : Block) (s : Stepper) (a : Axis) :
    (stepIteration B s).1.counter a
        = (axStep (B.steps a) B.step_event_count (s.count_direction a)
            (s.counter a, s.count_position a)).1
  ∧ (stepIteration B s).1.count_position a
        = (axStep (B.steps a) B.step_event_count (s.count_direction a)
            (s.counter a, s.count_position a)).2 := by
  fin_cases a <;>
    refine ⟨?_, ?_⟩ <;>
      simp [stepIteration, STEP_END_eq, STEP_START_counter_self, STEP_START_pos_self,
            STEP_START_counter_other, STEP_START_pos_other, STEP_START_dir]

/-- Per-axis projection of the iterated tracer. -/
theorem runSteps_axis (B : Block) (n : Nat) :
    ∀ s : Stepper, ∀ a : Axis,
      (runSteps B n s).1.count_position a
        = (axRun (B.steps a) B.step_event_count (s.count_direction a) n
            (s.counter a, s.count_position a)).2 := by
  induction n with
  | zero => intro s a; rfl
  | succ n ih =>
    intro s a
    have hdir := stepIteration_dir B s
    have hax := stepIteration_axis B s a
    calc (runSteps B (n + 1) s).1.count_position a
        = (runSteps B n (stepIteration B s).1).1.count_position a := rfl
      _ = (axRun (B.steps a) B.step_event_count ((stepIteration B s).1.count_direction a) n
            ((stepIteration B s).1.counter a, (stepIteration B s).1.count_position a)).2 :=
          ih (stepIteration B s).1 a
      _ = (axRun (B.steps a) B.step_event_count (s.count_direction a) n
            (axStep (B.steps a) B.step_event_count (s.count_direction a)
              (s.counter a, s.count_position a))).2 := by
          rw [hdir, hax.1, hax.2]
      _ = (axRun (B.steps a) B.step_event_count (s.count_direction a) (n + 1)
            (s.counter a, s.count_position a)).2 := rfl

/-- Invariant of the single-axis Bresenham recurrence: after `n` ticks the
counter equals `c0 + n·steps − m·sec` for the number `m` of emitted steps,
the position has advanced by `m·dir`, and the counter stays in
`(−sec, 0]`. -/
theorem axRun_invariant (st sec : Nat) (dir : Int) (hst : st ≤ sec) :
    ∀ n : Nat, ∀ c0 p0 : Int, -(sec : Int) < c0 → c0 ≤ 0 →
      ∃ m : Nat,
        axRun st sec dir n (c0, p0)
          = (c0 + (n : Int) * st - (m : Int) * sec, p0 + (m : Int) * dir)
        ∧ -(sec : Int) < c0 + (n : Int) * st - (m : Int) * sec
        ∧ c0 + (n : Int) * st - (m : Int) * sec ≤ 0 := by
  intro n
  induction n with
  | zero =>
    intro c0 p0 h1 h2
    exact ⟨0, by simp [axRun], by simpa using h1, by simpa using h2⟩
  | succ n ih =>
    intro c0 p0 h1 h2
    have hax : axRun st sec dir (n + 1) (c0, p0)
        = axRun st sec dir n (axStep st sec dir (c0, p0)) := rfl
    by_cases hc : 0 < c0 + (st : Int)
    · have hstep : axStep st sec dir (c0, p0) = (c0 + st - sec, p0 + dir) := by
        simp [axStep, hc]
      obtain ⟨m, hrun, hlo, hhi⟩ :=
        ih (c0 + st - sec) (p0 + dir) (by omega) (by omega)
      refine ⟨m + 1, ?_, ?_, ?_⟩
      · rw [hax, hstep, hrun]
        have e1 : c0 + st - sec + (n : Int) * st - (m : Int) * sec
            = c0 + ((n : Nat) + 1 : Int) * st - ((m : Nat) + 1 : Int) * sec := by ring
        have e2 : p0 + dir + (m : Int) * dir = p0 + ((m : Nat) + 1 : Int) * dir := by ring
        rw [e1, e2]
        push_cast
        ring_nf
      · have e1 : c0 + ((n + 1 : Nat) : Int) * st - ((m + 1 : Nat) : Int) * sec
            = c0 + st - sec + (n : Int) * st - (m : Int) * sec := by push_cast; ring
        rw [e1]; exact hlo
      · have e1 : c0 + ((n + 1 : Nat) : Int) * st - ((m + 1 : Nat) : Int) * sec
            = c0 + st - sec + (n : Int) * st - (m : Int) * sec := by push_cast; ring
        rw [e1]; exact hhi
    · have hstep : axStep st sec dir (c0, p0) = (c0 + st, p0) := by
        simp [axStep, hc]
      obtain ⟨m, hrun, hlo, hhi⟩ :=
        ih (c0 + st) p0 (by omega) (by omega)
      refine ⟨m, ?_, ?_, ?_⟩
      · rw [hax, hstep, hrun]
        have e1 : c0 + st + (n : Int) * st - (m : Int) * sec
            = c0 + ((n + 1 : Nat) : Int) * st - (m : Int) * sec := by push_cast; ring
        rw [e1]
      · have e1 : c0 + ((n + 1 : Nat) : Int) * st - ((m : Nat) : Int) * sec
            = c0 + st + (n : Int) * st - (m : Int) * sec := by push_cast; ring
        rw [e1]; exact hlo
      · have e1 : c0 + ((n + 1 : Nat) : Int) * st - ((m : Nat) : Int) * sec
            = c0 + st + (n : Int) * st - (m : Int) * sec := by push_cast; ring
        rw [e1]; exact hhi

/-- Over exactly `step_event_count` ticks from the initial counter
`-(step_event_count >> 1)`, a single axis emits exactly `steps` pulses, so
its position advances by `steps · dir`. -/
theorem axRun_count (st sec : Nat) (dir : Int) (hst : st ≤ sec) (hsec : 0 < sec)
    (p0 : Int) :
    (axRun st sec dir sec (-(((sec >>> 1 : Nat)) : Int), p0)).2
      = p0 + (st : Int) * dir := by
  have hdiv : (sec >>> 1 : Nat) = sec / 2 := by
    simp [Nat.shiftRight_eq_div_pow]
  have hlt : sec / 2 < sec := Nat.div_lt_self hsec (by norm_num)
  have h1 : -((sec : Int)) < -(((sec >>> 1 : Nat)) : Int) := by
    rw [hdiv]; omega
  have h2 : -(((sec >>> 1 : Nat)) : Int) ≤ 0 := by omega
  obtain ⟨m, hrun, hlo, hhi⟩ :=
    axRun_invariant st sec dir hst sec (-(((sec >>> 1 : Nat)) : Int)) p0 h1 h2
  have hsecZ : (0 : Int) < sec := by exact_mod_cast hsec
  have hA : ((st : Int) - 1) * sec < (m : Int) * sec := by nlinarith [hhi, h1]
  have hB : (m : Int) * sec < ((st : Int) + 1) * sec := by nlinarith [hlo, h2]
  have hA' : (st : Int) - 1 < m := (mul_lt_mul_right hsecZ).mp hA
  have hB' : (m : Int) < (st : Int) + 1 := (mul_lt_mul_right hsecZ).mp hB
  have hm : m = st := by omega
  rw [hrun, hm]

/-- `set_stepper_direction` leaves `count_position` alone. -/
theorem set_stepper_direction_pos (cfg : Config) (s : Stepper) :
    (set_stepper_direction cfg s).count_position = s.count_position := by
  simp only [set_stepper_direction]
  split_ifs <;> rfl

/-- `set_stepper_direction` latches `count_direction` from `out_bits`. -/
theorem set_stepper_direction_dir (cfg : Config) (s : Stepper) (a : Axis) :
    (set_stepper_direction cfg s).count_direction a
      = if s.out_bits a then -1 else 1 := by
  simp only [set_stepper_direction]
  split_ifs with h1 h2 h3 h4 <;> fin_cases a <;>
    simp_all [Function.update_noteq, Function.update_same]

/-- `trapezoid_generator_reset` leaves `count_position` alone. -/
theorem trapezoid_reset_pos (cfg : Config) (B : Block) (s : Stepper) :
    (trapezoid_generator_reset cfg B s).count_position = s.count_position := by
  simp only [trapezoid_generator_reset]
  split_ifs with h
  · exact set_stepper_direction_pos cfg _
  · rfl

/-- After `trapezoid_generator_reset`, `count_direction` matches the
block's `direction_bits` — either freshly latched, or inherited from a
state whose `count_direction` already mirrored `out_bits`. -/
theorem trapezoid_reset_dir (cfg : Config) (B : Block) (s : Stepper)
    (hdir : ∀ a, s.count_direction a = if s.out_bits a then -1 else 1) (a : Axis) :
    (trapezoid_generator_reset cfg B s).count_direction a
      = if B.direction_bits a then -1 else 1 := by
  have hproj : (trapezoid_generator_reset cfg B s).count_direction
      = (if B.direction_bits ≠ s.out_bits then
           set_stepper_direction cfg { s with out_bits := B.direction_bits }
         else s).count_direction := rfl
  rw [hproj]
  rcases eq_or_ne B.direction_bits s.out_bits with h | h
  · rw [if_neg (by simp [h]), hdir a, ← congrFun h a]
  · rw [if_pos h, set_stepper_direction_dir]

/-- `loadBlock` leaves `count_position` alone. -/
theorem loadBlock_pos (cfg : Config) (B : Block) (s : Stepper) :
    (loadBlock cfg B s).count_position = s.count_position :=
  trapezoid_reset_pos cfg B { s with current_block := some B }

/-- `loadBlock` initialises every Bresenham counter to
`-(step_event_count >> 1)`. -/
theorem loadBlock_counter (cfg : Config) (B : Block) (s : Stepper) (a : Axis) :
    (loadBlock cfg B s).counter a
      = -((B.step_event_count >>> 1 : Nat) : Int) := rfl

/-- `loadBlock` aligns `count_direction` with the block's direction
bits. -/
theorem loadBlock_dir (cfg : Config) (B : Block) (s : Stepper)
    (hdir : ∀ a, s.count_direction a = if s.out_bits a then -1 else 1) (a : Axis) :
    (loadBlock cfg B s).count_direction a
      = if B.direction_bits a then -1 else 1 :=
  trapezoid_reset_dir cfg B { s with current_block := some B } (fun a => hdir a) a

/-- `loadBlock` zeroes `step_events_completed`. -/
theorem loadBlock_completed (cfg : Config) (B : Block) (s : Stepper) :
    (loadBlock cfg B s).step_events_completed = 0 := rfl

/-- C1: round-trip of the Bresenham tracer.  After `st_set_position`,
loading a block and executing all `step_event_count` of its step events
(no endstop truncation), `st_get_position` on any axis returns the set
position plus the block's signed step count on that axis:
`+steps[axis]` when the axis direction bit is clear, `−steps[axis]` when
it is set.  The hypotheses are the planner invariants
`steps[axis] ≤ step_event_count`, a nonempty block, the 32-bit-`long`
representability bound under which the `Int` counters match the machine,
and `count_direction` mirroring `out_bits` (the source invariant that
holds whenever a prior `set_stepper_direction` latched the pins). -/
theorem block_position_roundtrip (cfg : Config) (B : Block) (x y z e : Int)
    (s : Stepper) (axis : Axis)
    (hdir : ∀ a, s.count_direction a = if s.out_bits a then -1 else 1)
    (hst : B.steps axis ≤ B.step_event_count)
    (hsec : 0 < B.step_event_count)
    (_hsmall : B.step_event_count < 2 ^ 31) :
    st_get_position axis
        (runSteps B B.step_event_count
          (loadBlock cfg B (st_set_position x y z e s))).1
      = ![x, y, z, e] axis
        + (if B.direction_bits axis then -((B.steps axis : Int))
           else (B.steps axis : Int)) := by
  have hdir' : ∀ a, (st_set_position x y z e s).count_direction a
      = if (st_set_position x y z e s).out_bits a then -1 else 1 := hdir
  have hd := loadBlock_dir cfg B (st_set_position x y z e s) hdir' axis
  have hpos0 : (loadBlock cfg B (st_set_position x y z e s)).count_position axis
      = ![x, y, z, e] axis := by
    rw [loadBlock_pos]; rfl
  show (runSteps B B.step_event_count
          (loadBlock cfg B (st_set_position x y z e s))).1.count_position axis = _
  rw [runSteps_axis, hd, loadBlock_counter, hpos0, axRun_count _ _ _ hst hsec]
  split_ifs with hb <;> ring

/-- Witness for C1: the `B34` block (3 X-steps in the negative direction,
dominant count 4) moves the X mirror from 10 to 7. -/
theorem block_position_roundtrip_witness :
    (∀ a, sIdle.count_direction a = if sIdle.out_bits a then -1 else 1)
  ∧ B34.steps 0 ≤ B34.step_event_count
  ∧ 0 < B34.step_event_count
  ∧ B34.step_event_count < 2 ^ 31
  ∧ st_get_position 0
      (runSteps B34 B34.step_event_count
        (loadBlock cfgA B34 (st_set_position 10 20 30 40 sIdle))).1 = 7 := by
  have h := block_position_roundtrip cfgA B34 10 20 30 40 sIdle 0
    (by decide) (by decide) (by decide) (by decide)
  refine ⟨by decide, by decide, by decide, by decide, ?_⟩
  rw [h]; decide

/-- The step loop never decreases `step_events_completed`. -/
theorem stepLoop_completed_le (B : Block) (n : Nat) :
    ∀ s : Stepper,
      s.step_events_completed ≤ (stepLoop B n s).1.step_events_completed := by
  induction n with
  | zero => intro s; exact le_refl _
  | succ n ih =>
    intro s
    simp only [stepLoop]
    split
    · rw [stepIteration_completed]; omega
    · calc s.step_events_completed
          ≤ (stepIteration B s).1.step_events_completed := by
            rw [stepIteration_completed]; omega
        _ ≤ (stepLoop B n (stepIteration B s).1).1.step_events_completed := ih _

/-- The step loop leaves `current_block` alone. -/
theorem stepLoop_block (B : Block) (n : Nat) :
    ∀ s : Stepper, (stepLoop B n s).1.current_block = s.current_block := by
  induction n with
  | zero => intro s; rfl
  | succ n ih =>
    intro s
    simp only [stepLoop]
    split
    · exact stepIteration_block B s
    · exact (ih _).trans (stepIteration_block B s)

/-- The trapezoid update leaves `current_block` alone. -/
theorem trapezoidPhase_block (cfg : Config) (B : Block) (s : Stepper) :
    (trapezoidPhase cfg B s).1.current_block = s.current_block := by
  simp only [trapezoidPhase, accelBranch, decelBranch]
  split_ifs <;> rfl

/-- The trapezoid update leaves `step_events_completed` alone. -/
theorem trapezoidPhase_completed (cfg : Config) (B : Block) (s : Stepper) :
    (trapezoidPhase cfg B s).1.step_events_completed = s.step_events_completed := by
  simp only [trapezoidPhase, accelBranch, decelBranch]
  split_ifs <;> rfl

/-- `set_stepper_direction` leaves `current_block` alone. -/
theorem set_stepper_direction_block (cfg : Config) (s : Stepper) :
    (set_stepper_direction cfg s).current_block = s.current_block := by
  simp only [set_stepper_direction]
  split_ifs <;> rfl

/-- `loadBlock` installs the popped block as `current_block`. -/
theorem loadBlock_block (cfg : Config) (B : Block) (s : Stepper) :
    (loadBlock cfg B s).current_block = some B := by
  show (trapezoid_generator_reset cfg B { s with current_block := some B }).current_block
      = some B
  simp only [trapezoid_generator_reset]
  split_ifs with h
  · exact set_stepper_direction_block cfg _
  · rfl

/-- When `cleaning_buffer_counter` is zero and a block is in progress, the
ISR runs its in-block body. -/
theorem isr_main_eq (cfg : Config) (inp : IsrIn) (s : Stepper) (B : Block)
    (hclean : s.cleaning_buffer_counter = 0) (hblock : s.current_block = some B) :
    isr cfg inp s = isrMain cfg inp B s := by
  simp [isr, isrMain, hclean, hblock]

/-- Core facts about one in-block ISR body: (1) if a block is still
installed on exit, its step counter is strictly below `step_event_count`;
(2) the step counter does not decrease (given the entry invariant);
(3) reaching `step_event_count` forces release and discard; (4) an endstop
check that forces the counter propagates to the exit state. -/
theorem isrMain_facts (cfg : Config) (inp : IsrIn) (B : Block) (s : Stepper)
    (hblock : s.current_block = some B) :
    (∀ B2, (isrMain cfg inp B s).state.current_block = some B2 →
        (isrMain cfg inp B s).state.step_events_completed < B2.step_event_count)
  ∧ (s.step_events_completed ≤ B.step_event_count →
        s.step_events_completed ≤ (isrMain cfg inp B s).state.step_events_completed)
  ∧ (B.step_event_count ≤ (isrMain cfg inp B s).state.step_events_completed →
        (isrMain cfg inp B s).state.current_block = none
        ∧ (isrMain cfg inp B s).discarded = true)
  ∧ (s.check_endstops = true →
        (endstopPhase cfg B inp.pins s).step_events_completed = B.step_event_count →
        B.step_event_count ≤ (isrMain cfg inp B s).state.step_events_completed) := by
  set s2 := if s.check_endstops then endstopPhase cfg B inp.pins s else s with hs2
  set t1 := (trapezoidPhase cfg B (stepLoop B s2.step_loops s2).1).1 with ht1
  have hs2block : s2.current_block = some B := by
    rw [hs2]; split_ifs with hc
    · rw [endstopPhase_block]; exact hblock
    · exact hblock
  have htblock : t1.current_block = some B := by
    rw [ht1, trapezoidPhase_block, stepLoop_block]; exact hs2block
  have htcomp : s2.step_events_completed ≤ t1.step_events_completed := by
    rw [ht1, trapezoidPhase_completed]; exact stepLoop_completed_le B _ s2
  have hstate : (isrMain cfg inp B s).state
      = if B.step_event_count ≤ t1.step_events_completed
        then { t1 with current_block := none } else t1 := by
    rw [ht1, hs2]; rfl
  have hdisc : ((isrMain cfg inp B s).discarded = true)
      ↔ B.step_event_count ≤ t1.step_events_completed := by
    rw [ht1, hs2]; simp [isrMain]
  refine ⟨?_, ?_, ?_, ?_⟩
  · intro B2 h
    rw [hstate] at h ⊢
    by_cases hrel : B.step_event_count ≤ t1.step_events_completed
    · rw [if_pos hrel] at h
      simp at h
    · rw [if_neg hrel] at h ⊢
      have hB2 : some B = some B2 := htblock.symm.trans h
      have hB2' : B2 = B := by injection hB2 with h'; exact h'.symm
      rw [hB2']
      omega
  · intro hle
    have hs2comp : s.step_events_completed ≤ s2.step_events_completed := by
      rw [hs2]; split_ifs with hc
      · rcases endstopPhase_completed_cases cfg B inp.pins s with h | h <;> omega
      · exact le_refl _
    rw [hstate]
    split_ifs with hrel
    · exact le_trans hs2comp htcomp
    · exact le_trans hs2comp htcomp
  · intro hge
    rw [hstate] at hge
    have hrel : B.step_event_count ≤ t1.step_events_completed := by
      by_cases hrel : B.step_event_count ≤ t1.step_events_completed
      · exact hrel
      · rw [if_neg hrel] at hge; exact absurd hge hrel
    constructor
    · rw [hstate, if_pos hrel]
    · exact hdisc.mpr hrel
  · intro hc hforced
    have hs2c : s2.step_events_completed = B.step_event_count := by
      rw [hs2, if_pos hc]; exact hforced
    rw [hstate]
    split_ifs with hrel
    · exact le_trans (le_of_eq hs2c.symm) htcomp
    · exact le_trans (le_of_eq hs2c.symm) htcomp

/-- The flush path (`cleaning_buffer_counter ≠ 0`) drops the block and
discards. -/
theorem isr_clean_facts (cfg : Config) (inp : IsrIn) (s : Stepper)
    (h : s.cleaning_buffer_counter ≠ 0) :
    (isr cfg inp s).state.current_block = none
  ∧ (isr cfg inp s).discarded = true
  ∧ (isr cfg inp s).state.step_events_completed = s.step_events_completed := by
  refine ⟨?_, ?_, ?_⟩ <;> simp [isr, h]

/-- With no block and an empty queue the ISR only re-arms the idle poll. -/
theorem isr_idle_eq (cfg : Config) (inp : IsrIn) (s : Stepper)
    (hclean : s.cleaning_buffer_counter = 0)
    (hblock : s.current_block = none) (hq : inp.queueHead = none) :
    (isr cfg inp s).state = s := by
  simp [isr, hclean, hblock, hq]

/-- With no block and a nonempty queue the ISR loads the head block and
runs the in-block body on the loaded state in the same invocation. -/
theorem isr_pop_eq (cfg : Config) (inp : IsrIn) (s : Stepper) (B : Block)
    (hclean : s.cleaning_buffer_counter = 0)
    (hblock : s.current_block = none) (hq : inp.queueHead = some B) :
    isr cfg inp s = isrMain cfg inp B (loadBlock cfg B s) := by
  simp [isr, isrMain, hclean, hblock, hq, loadBlock_block]

/-- C6: at ISR-invocation granularity, `step_events_completed` starts at 0
when a block is loaded, never exceeds `step_event_count` while a block is
installed (the exit value is even strictly below it whenever a block
remains), is non-decreasing across an invocation that keeps the block,
and any invocation whose exit counter reaches `step_event_count` releases
the block (`current_block := none` and `plan_discard_current_block`
called) in that same invocation. -/
theorem step_events_completed_invariant (cfg : Config) (inp : IsrIn)
    (s : Stepper) (B : Block) :
    (∀ B2, (isr cfg inp s).state.current_block = some B2 →
        (isr cfg inp s).state.step_events_completed < B2.step_event_count)
  ∧ (s.current_block = some B → s.step_events_completed < B.step_event_count →
        s.step_events_completed ≤ (isr cfg inp s).state.step_events_completed)
  ∧ (s.current_block = some B →
        B.step_event_count ≤ (isr cfg inp s).state.step_events_completed →
        (isr cfg inp s).state.current_block = none
        ∧ (isr cfg inp s).discarded = true)
  ∧ (loadBlock cfg B s).step_events_completed = 0 := by
  refine ⟨?_, ?_, ?_, loadBlock_completed cfg B s⟩
  · intro B2 h
    by_cases hclean : s.cleaning_buffer_counter = 0
    · cases hcb : s.current_block with
      | some B1 =>
        rw [isr_main_eq cfg inp s B1 hclean hcb] at h ⊢
        exact (isrMain_facts cfg inp B1 s hcb).1 B2 h
      | none =>
        cases hq : inp.queueHead with
        | none =>
          rw [isr_idle_eq cfg inp s hclean hcb hq, hcb] at h
          exact Option.noConfusion h
        | some B1 =>
          rw [isr_pop_eq cfg inp s B1 hclean hcb hq] at h ⊢
          exact (isrMain_facts cfg inp B1 (loadBlock cfg B1 s)
            (loadBlock_block cfg B1 s)).1 B2 h
    · rw [(isr_clean_facts cfg inp s hclean).1] at h
      exact Option.noConfusion h
  · intro hb hlt
    by_cases hclean : s.cleaning_buffer_counter = 0
    · rw [isr_main_eq cfg inp s B hclean hb]
      exact (isrMain_facts cfg inp B s hb).2.1 (le_of_lt hlt)
    · rw [(isr_clean_facts cfg inp s hclean).2.2]
  · intro hb hge
    by_cases hclean : s.cleaning_buffer_counter = 0
    · rw [isr_main_eq cfg inp s B hclean hb] at hge ⊢
      exact (isrMain_facts cfg inp B s hb).2.2.1 hge
    · exact ⟨(isr_clean_facts cfg inp s hclean).1,
             (isr_clean_facts cfg inp s hclean).2.1⟩

/-- Witness for C6: running the two-step X block `Bx` from `s7`
(counter = 1 of 2 entering would exceed; here entering at 0) completes
the block and releases it in the same invocation. -/
theorem step_events_completed_invariant_witness :
    s7.current_block = some Bx
  ∧ s7.step_events_completed < Bx.step_event_count
  ∧ s7.step_events_completed ≤ (isr cfgA inpQuiet s7).state.step_events_completed
  ∧ Bx.step_event_count ≤ (isr cfgA inpQuiet s7).state.step_events_completed
  ∧ (isr cfgA inpQuiet s7).state.current_block = none
  ∧ (isr cfgA inpQuiet s7).discarded = true
  ∧ (loadBlock cfgA Bx sIdle).step_events_completed = 0 := by
  have h := step_events_completed_invariant cfgA inpQuiet s7 Bx
  refine ⟨by decide, by decide, h.2.1 (by decide) (by decide), by decide, ?_, ?_, h.2.2.2⟩
  · exact (h.2.2.1 (by decide) (by decide)).1
  · exact (h.2.2.1 (by decide) (by decide)).2

/-- C2: an endstop counts as triggered only when it reads asserted in both
the current sample and the previous tick's `old_endstop_bits` (first
conjunct: without two-sample agreement `UPDATE_ENDSTOP` only refreshes the
sample bit); on a confirmed trigger of an axis with nonzero steps the
check records `endstops_trigsteps[axis] = count_position[axis]`, latches
the axis bit of `endstop_hit_bits`, and forces
`step_events_completed = step_event_count` (second conjunct); and an ISR
invocation entered with a confirmed X_MIN trigger while moving in -X
releases the block (`current_block := none`, discard) in that same
invocation (third conjunct). -/
theorem endstop_trigger_truncates (cfg : Config) (B : Block)
    (old pins : Endstop → Bool) (cpos : Axis → Int) (axis : Fin 3) (e : Endstop)
    (c : ECtx) (inp : IsrIn) (s : Stepper) :
    (¬(pins e = true ∧ old e = true) →
        UPDATE_ENDSTOP B old pins cpos axis e c
          = { c with cur := SET_ENDSTOP_BIT pins c.cur e })
  ∧ (pins e = true → old e = true → 0 < B.steps axis.castSucc →
        (UPDATE_ENDSTOP B old pins cpos axis e c).trig axis = cpos axis.castSucc
      ∧ (UPDATE_ENDSTOP B old pins cpos axis e c).hit (minBit axis) = true
      ∧ (UPDATE_ENDSTOP B old pins cpos axis e c).completed = B.step_event_count)
  ∧ (s.cleaning_buffer_counter = 0 → s.current_block = some B →
        s.check_endstops = true → s.out_bits 0 = true →
        inp.pins Endstop.X_MIN = true → s.old_endstop_bits Endstop.X_MIN = true →
        0 < B.steps 0 →
        (isr cfg inp s).state.current_block = none
      ∧ (isr cfg inp s).discarded = true) := by
  refine ⟨UPDATE_no_trigger, ?_, ?_⟩
  · intro hp ho hs
    exact ⟨UPDATE_trig_fires hp ho hs, UPDATE_hit_fires hp ho hs,
           UPDATE_completed_fires hp ho hs⟩
  · intro hclean hblock hcheck hout hp ho hs
    rw [isr_main_eq cfg inp s B hclean hblock]
    have hforced := endstopPhase_forced_X cfg B inp.pins s hout hp ho hs
    exact (isrMain_facts cfg inp B s hblock).2.2.1
      ((isrMain_facts cfg inp B s hblock).2.2.2 hcheck hforced)

/-- Witness for C2: the `sC2` state (five-step -X block, X_MIN asserted in
both samples) records the trigger and releases the block in one
invocation. -/
theorem endstop_trigger_truncates_witness :
    pinsXMin Endstop.X_MIN = true
  ∧ sC2.old_endstop_bits Endstop.X_MIN = true
  ∧ 0 < BxMin.steps 0
  ∧ (UPDATE_ENDSTOP BxMin sC2.old_endstop_bits pinsXMin sC2.count_position 0
       Endstop.X_MIN ⟨fun _ => false, sC2.endstop_hit_bits, sC2.endstops_trigsteps,
                      sC2.step_events_completed⟩).completed = BxMin.step_event_count
  ∧ (isr cfgA inpC2 sC2).state.current_block = none
  ∧ (isr cfgA inpC2 sC2).discarded = true := by
  have h := endstop_trigger_truncates cfgA BxMin sC2.old_endstop_bits pinsXMin
    sC2.count_position 0 Endstop.X_MIN
    ⟨fun _ => false, sC2.endstop_hit_bits, sC2.endstops_trigsteps,
     sC2.step_events_completed⟩ inpC2 sC2
  refine ⟨by decide, by decide, by decide, ?_, ?_, ?_⟩
  · exact (h.2.1 (by decide) (by decide) (by decide)).2.2
  · exact (h.2.2 (by decide) (by decide) (by decide) (by decide) (by decide)
      (by decide) (by decide)).1
  · exact (h.2.2 (by decide) (by decide) (by decide) (by decide) (by decide)
      (by decide) (by decide)).2

/-- The edges emitted by `STEP_START` are all rising. -/
theorem allRises_STEP_START (B : Block) (a : Axis) (s : Stepper) :
    allRises (STEP_START B a s).2 = true := by
  simp only [STEP_START]
  split
  · split <;> rfl
  · rfl

/-- The edges emitted by `STEP_END` are all falling. -/
theorem allFalls_STEP_END (a : Axis) (s : Stepper) :
    allFalls (STEP_END a s).2 = true := by
  simp only [STEP_END]
  split <;> rfl

/-- A list of falls satisfies the rises-then-falls shape. -/
theorem risesThenFalls_of_allFalls {l : List Event} (h : allFalls l = true) :
    risesThenFalls l = true := by
  cases l with
  | nil => rfl
  | cons e r =>
    cases e with
    | rise a => exact absurd h (by simp [allFalls])
    | fall a => exact h

/-- Appending preserves the all-falls shape. -/
theorem allFalls_append {l1 l2 : List Event} (h1 : allFalls l1 = true)
    (h2 : allFalls l2 = true) : allFalls (l1 ++ l2) = true := by
  induction l1 with
  | nil => exact h2
  | cons e r ih =>
    cases e with
    | rise a => exact absurd h1 (by simp [allFalls])
    | fall a => exact ih h1

/-- Prefixing rises preserves the rises-then-falls shape. -/
theorem risesThenFalls_append {l1 l2 : List Event} (h1 : allRises l1 = true)
    (h2 : risesThenFalls l2 = true) : risesThenFalls (l1 ++ l2) = true := by
  induction l1 with
  | nil => exact h2
  | cons e r ih =>
    cases e with
    | rise a => exact ih h1
    | fall a => exact absurd h1 (by simp [allRises])

/-- Within one Bresenham step event, every rising edge precedes every
falling edge. -/
theorem stepIteration_trace (B : Block) (s : Stepper) :
    risesThenFalls (stepIteration B s).2 = true := by
  simp only [stepIteration, List.append_assoc]
  refine risesThenFalls_append (allRises_STEP_START B 0 s)
    (risesThenFalls_append (allRises_STEP_START B 1 _)
      (risesThenFalls_append (allRises_STEP_START B 2 _)
        (risesThenFalls_append (allRises_STEP_START B 3 _)
          (risesThenFalls_of_allFalls
            (allFalls_append (allFalls_STEP_END 0 _)
              (allFalls_append (allFalls_STEP_END 1 _)
                (allFalls_append (allFalls_STEP_END 2 _)
                  (allFalls_STEP_END 3 _))))))))

/-- A step loop bounded at one iteration emits a rises-then-falls trace. -/
theorem stepLoop_one_trace (B : Block) (s : Stepper) :
    risesThenFalls (stepLoop B 1 s).2 = true := by
  simp only [stepLoop]
  split
  · exact stepIteration_trace B s
  · rw [List.append_nil]
    exact stepIteration_trace B s

/-- C7 (counterexample): with `step_loops = 2` and a block stepping X on
every tick, one ISR invocation emits rise, fall, rise, fall on X — the
falling edge of the first step event precedes the rising edge of the
second, so not all rising edges of the invocation precede all falling
edges. -/
theorem rises_before_falls_counterexample :
    s7.step_loops = 2
  ∧ (isr cfgA inpQuiet s7).events
      = [Event.rise 0, Event.fall 0, Event.rise 0, Event.fall 0]
  ∧ risesThenFalls (isr cfgA inpQuiet s7).events = false := by
  refine ⟨rfl, ?_, ?_⟩ <;> decide

/-- C7 (amended): within each single Bresenham step event all rising edges
precede all falling edges, and an ISR invocation entered with a block in
progress and `step_loops = 1` (a single step event) emits all its rising
edges before any falling edge; with `step_loops` 2 or 4 the per-invocation
form fails as the counterexample shows. -/
theorem rises_before_falls_per_event (cfg : Config) (inp : IsrIn) (s : Stepper)
    (B : Block) (hblock : s.current_block = some B) (hloops : s.step_loops = 1) :
    risesThenFalls (isr cfg inp s).events = true
  ∧ (∀ (B2 : Block) (s2 : Stepper), risesThenFalls (stepIteration B2 s2).2 = true) := by
  constructor
  · by_cases hclean : s.cleaning_buffer_counter = 0
    · rw [isr_main_eq cfg inp s B hclean hblock]
      have hl : (if s.check_endstops then endstopPhase cfg B inp.pins s else s).step_loops
          = 1 := by
        split_ifs with hc
        · rw [endstopPhase_step_loops]; exact hloops
        · exact hloops
      have hev : (isrMain cfg inp B s).events
          = (stepLoop B
              (if s.check_endstops then endstopPhase cfg B inp.pins s else s).step_loops
              (if s.check_endstops then endstopPhase cfg B inp.pins s else s)).2 := rfl
      rw [hev, hl]
      exact stepLoop_one_trace B _
    · have h : (isr cfg inp s).events = [] := by simp [isr, hclean]
      rw [h]; rfl
  · intro B2 s2; exact stepIteration_trace B2 s2

/-- Witness for the amended C7: the single-step-event state `sC2` emits a
rises-then-falls trace. -/
theorem rises_before_falls_per_event_witness :
    sC2.current_block = some BxMin ∧ sC2.step_loops = 1
  ∧ risesThenFalls (isr cfgA inpQuiet sC2).events = true := by
  have h := rises_before_falls_per_event cfgA inpQuiet sC2 BxMin (by decide) (by decide)
  exact ⟨by decide, by decide, h.1⟩
